import Mathlib

/-!
Shallow embedding of the editing/highlighting core of `src/editor/text_editor.cpp`
(class `TextEditor`), together with the cache-insertion policy it shares with the
semantic lane.  C++ `std::string` is modelled as `List Char` (one `Char` per byte),
`std::vector` as `List`, `std::unordered_map` as an association list, and machine
`size_t` arithmetic as `Nat` reduced modulo `2 ^ 64` where the source can overflow.
`int` quantities that the source allows to be negative (cursor coordinates, the
`-1` defaults of `UpdateContentFromLines`) are modelled as `Int`.

The background highlight job (`std::async` + `std::future`) is modelled as an
explicit job slot: launching stores a `running` snapshot, a separate transition
finishes the job (running the tokenizer on the captured snapshot, exactly as the
lambda in `UpdateHighlightingAsync` does), and the non-blocking poll
`ProcessPendingHighlights` consumes a `done` slot.  A tokenizer invocation that
throws is modelled by the tokenizer returning `Except.error`; the stored
exception is rethrown by `future::get()` inside the poll, which we model by the
poll returning `Except.error` carrying the state at the throw point.

Floating-point rendering data is outside the embedding: the `ImVec4 color` field
of `SyntaxToken` is omitted because the source computes it as the pure function
`GetColorForCapture(type)` of the `type` field, and the two `float` viewport
bounds used by `FilterVisibleTokens` are carried as integers (their defaults in
the source are the integers 0 and 1000).
-/

/-- One byte of a C++ `std::string`. -/
abbrev Str := List Char

/-- `TokenType` from `syntax_highlighter.h` (the core treats it as opaque). -/
inductive TokenType where
  | None | Ident | NumberLiteral | NumberLiteralDark | StringLiteral
  | FormatSpecifier | EscapedChar | StringSeq | PrimitiveType | Function
  | FunctionCall | IdentSub | NewType | Null | Preproc | PreprocErr
  | PreprocWar | SystemLibString | PreprocIdent | PreprocArg | PreprocArgCall
  | PreprocIdentFunc | PreprocIdentVar | PreprocOp | Keywords1 | Keywords2
  | Comment | CharLiteral | Paren1 | Paren2 | Paren3 | Paren4 | Paren5
  | Paren6 | Paren7 | Paren8 | Quote | Default
deriving DecidableEq, Repr

/-- `SyntaxToken` from `syntax_highlighter.h`; the derived `ImVec4 color`
(`GetColorForCapture(type)`) is omitted, see the header comment. -/
structure SyntaxToken where
  line : Int
  column : Int
  length : Int
  type : TokenType
deriving DecidableEq, Repr

/-- `CursorPosition` from `text_editor.h`. -/
structure CursorPosition where
  line : Int := 0
  column : Int := 0
deriving DecidableEq, Repr

/-- `operator<` of `CursorPosition`: (line, column) lexicographic. -/
def cursorLt (a b : CursorPosition) : Bool :=
  a.line < b.line || (a.line == b.line && a.column < b.column)

/-- `std::min` on cursors (returns the first argument on ties). -/
def cursorMin (a b : CursorPosition) : CursorPosition := if cursorLt b a then b else a

/-- `std::max` on cursors (returns the first argument on ties). -/
def cursorMax (a b : CursorPosition) : CursorPosition := if cursorLt a b then b else a

/-- `EditorState` from `text_editor.h`: an undo/redo snapshot. -/
structure EditorState where
  content : Str
  cursor : CursorPosition
deriving DecidableEq, Repr

/-- `TextEdit` from `text_editor.h` (tree-sitter edit record). -/
structure TextEdit where
  start_byte : Nat
  old_end_byte : Nat
  new_end_byte : Nat
  start_point : Nat × Nat
deriving DecidableEq, Repr

/-- `LineCache` from `text_editor.h`, with the member initializers of the source. -/
structure LineCache where
  line_hash : Nat := 0
  tokens : List SyntaxToken := []
  is_valid : Bool := false
  needs_update : Bool := false
deriving DecidableEq, Repr

/-- The interior entries produced by `SetContent`: a default-constructed
`LineCache` after `is_valid = false; needs_update = true`. -/
def invalidatedEntry : LineCache :=
  { line_hash := 0, tokens := [], is_valid := false, needs_update := true }

/-- 2^64, the modulus of `size_t` arithmetic. -/
def M64 : Nat := 2 ^ 64

/-- Model of `std::hash<std::string>` (implementation-defined in C++; any fixed
function of the byte string is a faithful model — we use 64-bit FNV-1a). -/
def hashString (s : Str) : Nat :=
  s.foldl (fun h c => ((h ^^^ c.toNat) * 1099511628211) % M64) 14695981039346656037

/-- `TextEditor::HashLine`: `std::hash<std::string>{}(line)`. -/
def hashLine (l : Str) : Nat := hashString l

/-- `TextEditor::HashContent`:
`hash ^= HashLine(line) + 0x9e3779b9 + (hash << 6) + (hash >> 2)` over all lines,
in `size_t` arithmetic. -/
def hashContent (lines : List Str) : Nat :=
  lines.foldl
    (fun h l => (h ^^^ ((hashLine l + 0x9e3779b9 + (h <<< 6) + (h >>> 2)) % M64)) % M64)
    0

/-- `std::getline` splitting loop used by the constructor, `SetContent` and
`PasteText`: `getline` reads up to a line feed (consuming it) and fails exactly
when the stream is already exhausted, so a trailing line feed does not produce a
final empty line (`splitGetline (l ++ ['\n']) = splitGetline l ++ []`-style
behavior is captured by the `'\n'`-with-empty-remainder case). -/
def splitGetline : Str → List Str
  | [] => []
  | c :: s =>
    if c = '\n' then
      if s = [] then [[]] else [] :: splitGetline s
    else
      match splitGetline s with
      | [] => [[c]]
      | l :: ls => (c :: l) :: ls

/-- The `getline` loop followed by `if (lines.empty()) lines.push_back("")`. -/
def loadLines (s : Str) : List Str :=
  let l := splitGetline s
  if l.isEmpty then [[]] else l

/-- `TextEditor::GetContent`: join the lines with single line-feed separators
(`if (i + 1 < lines_.size()) cached_content_ += '\n'`); the memoization through
`cached_content_`/`content_dirty_` is observationally this pure function. -/
def getContent : List Str → Str
  | [] => []
  | [l] => l
  | l :: ls => l ++ '\n' :: getContent ls

/-- `unordered_map` lookup (`find`). -/
def mapLookup (m : List (Nat × α)) (k : Nat) : Option α :=
  (m.find? (fun p => p.1 == k)).map (·.2)

/-- `unordered_map` `operator[] =`: overwrite the key if present, else add it. -/
def mapInsert (m : List (Nat × α)) (k : Nat) (v : α) : List (Nat × α) :=
  if m.any (fun p => p.1 == k) then
    m.map (fun p => if p.1 == k then (k, v) else p)
  else m ++ [(k, v)]

/-- The insertion policy shared by `token_cache_` (bound 10, in
`UpdateHighlightingAsync`) and `semantic_cache_` (bound 5, in
`UpdateSemanticKindsAsync`): assign the entry, then if the size exceeds the
bound, clear the whole cache and assign the new entry alone. -/
def boundedStore (bound : Nat) (m : List (Nat × α)) (k : Nat) (v : α) : List (Nat × α) :=
  let m' := mapInsert m k v
  if m'.length > bound then mapInsert [] k v else m'

/-- `token_cache_` insertion in the background lambda of
`UpdateHighlightingAsync` (bound 10). -/
def tokenCacheStore (m : List (Nat × List SyntaxToken)) (k : Nat) (v : List SyntaxToken) :
    List (Nat × List SyntaxToken) :=
  boundedStore 10 m k v

/-- `(line, column) → clang cursor-kind string` map of the semantic lane. -/
abbrev SemMap := List ((Int × Int) × Str)

/-- `semantic_cache_` insertion in `UpdateSemanticKindsAsync` (bound 5). -/
def semanticCacheStore (m : List (Nat × SemMap)) (k : Nat) (v : SemMap) :
    List (Nat × SemMap) :=
  boundedStore 5 m k v

/-- Insertion step of the column sort below. -/
def insertByColumn (t : SyntaxToken) : List SyntaxToken → List SyntaxToken
  | [] => [t]
  | u :: us => if t.column < u.column then t :: u :: us else u :: insertByColumn t us

/-- `std::sort(..., a.column < b.column)` in `RebuildTokensByLine`; `std::sort`
is unstable, so any ordering of equal columns refines it — we use a concrete
insertion sort. -/
def sortTokensByColumn (l : List SyntaxToken) : List SyntaxToken :=
  l.foldr insertByColumn []

/-- One iteration of the distribution loop of `RebuildTokensByLine`: push the
token onto bucket `token.line - 1` when that index is in `[0, n)`. -/
def distributeStep (n : Nat) (acc : List (List SyntaxToken)) (t : SyntaxToken) :
    List (List SyntaxToken) :=
  let idx : Int := t.line - 1
  if 0 ≤ idx ∧ idx < (n : Int) then
    acc.set idx.toNat (acc.getD idx.toNat [] ++ [t])
  else acc

/-- The distribution loop of `RebuildTokensByLine` over freshly cleared and
resized buckets. -/
def distributeTokens (n : Nat) (tokens : List SyntaxToken) : List (List SyntaxToken) :=
  tokens.foldl (distributeStep n) (List.replicate n [])

/-- `TextEditor::RebuildTokensByLine`: clear and resize the buckets, look the
current content hash up in `token_cache_`; on a miss restore the old buckets,
on a hit distribute the cached tokens and sort each bucket by column. -/
def rebuildTokensByLine (lines : List Str) (cache : List (Nat × List SyntaxToken))
    (old : List (List SyntaxToken)) : List (List SyntaxToken) :=
  match mapLookup cache (hashContent lines) with
  | none => old
  | some toks => (distributeTokens lines.length toks).map sortTokensByColumn

/-- An in-flight highlight job: `running` holds the snapshot captured at launch
(`this_version`, the serialized content, the drained `pending_edits_` list);
`done` holds what `highlight_future_` will deliver — either the
`(version, tokens)` pair or the exception the tokenizer threw. -/
inductive JobPhase where
  | running (version : Nat) (content : Str) (edits : List TextEdit)
  | done (result : Except Unit (Nat × List SyntaxToken))


/-- The tokenizer service `SyntaxHighlighter::HighlightIncremental`, which is
external to the core; `Except.error` models a thrown exception. -/
abbrev Tokenizer := Str → List TextEdit → Except Unit (List SyntaxToken)

/-- The foreground-visible state of `TextEditor` (highlight lane; the semantic
lane is structurally identical and is modelled only through
`semanticCacheStore`).  `cached_content_`/`content_dirty_` memoization is
observationally `getContent lines` and carries no extra state.  The two
viewport fields default to the source's initializers 0 and 1000. -/
structure Editor where
  lines : List Str
  cursor : CursorPosition := {}
  selection_start : CursorPosition := {}
  has_selection : Bool := false
  undo_stack : List EditorState := []
  redo_stack : List EditorState := []
  typing_session : Bool := false
  deleting_session : Bool := false
  pending_edits : List TextEdit := []
  content_version : Nat := 0
  highlight_pending : Bool := false
  highlight_dirty : Bool := false
  job : Option JobPhase := none
  token_cache : List (Nat × List SyntaxToken) := []
  tokens_by_line : List (List SyntaxToken) := []
  line_token_cache : List LineCache := []
  visible_column_start : Int := 0
  visible_column_width : Int := 1000

/-- `vector::resize(n)` with default-constructed fill. -/
def resizeWith (d : α) (l : List α) (n : Nat) : List α :=
  l.take n ++ List.replicate (n - l.length) d

/-- The `needs_update = true` marking loop of `UpdateContentFromLines`,
restricted to indices `first ≤ i ≤ last` (indices counted from `i0`). -/
def markFrom (i0 : Nat) (first last : Int) : List LineCache → List LineCache
  | [] => []
  | c :: cs =>
    (if first ≤ (i0 : Int) ∧ (i0 : Int) ≤ last then { c with needs_update := true } else c)
      :: markFrom (i0 + 1) first last cs

/-- `TextEditor::UpdateHighlightingAsync`: `highlight_pending_.exchange(true)`
guards the launch; launching captures the serialized content, drains
`pending_edits_`, and records the current `content_version_`. -/
def updateHighlightingAsync (st : Editor) : Editor :=
  if st.highlight_pending then st
  else
    { st with
      highlight_pending := true
      pending_edits := []
      job := some (.running st.content_version (getContent st.lines) st.pending_edits) }

/-- `TextEditor::UpdateContentFromLines(start_line, end_line)`: resolve the
`-1` default for `end_line`, bump `content_version_`, resize both per-line
structures to the buffer size, mark the requested range (or everything, when
`start_line < 0`) as needing update, and — since `HIGHLIGHT_DEBOUNCE` is 0 ms,
so the elapsed-time test always passes — either set the dirty flag (job already
pending) or launch a highlight job. -/
def updateContentFromLines (st : Editor) (start_line end_line : Int) : Editor :=
  let end_line := if end_line < 0 then (st.lines.length : Int) - 1 else end_line
  let cache0 := resizeWith {} st.line_token_cache st.lines.length
  let tbl0 := resizeWith [] st.tokens_by_line st.lines.length
  let cache1 :=
    if 0 ≤ start_line ∧ 0 ≤ end_line then markFrom 0 start_line end_line cache0
    else cache0.map (fun (c : LineCache) => { c with needs_update := true })
  let st := { st with
    content_version := st.content_version + 1
    line_token_cache := cache1
    tokens_by_line := tbl0 }
  if st.highlight_pending then { st with highlight_dirty := true }
  else updateHighlightingAsync st

/-- The background lambda of `UpdateHighlightingAsync`: with pending edits,
tokenize directly; otherwise consult `token_cache_` under the snapshot's
`std::hash<std::string>` key, and on a miss tokenize and store with the
bound-10 clear-on-overflow policy.  Returns the future's value (or the stored
exception) together with the token cache as the lambda leaves it. -/
def runHighlightJob (tok : Tokenizer) (cache : List (Nat × List SyntaxToken))
    (content : Str) (edits : List TextEdit) (version : Nat) :
    Except Unit (Nat × List SyntaxToken) × List (Nat × List SyntaxToken) :=
  if edits.isEmpty then
    let h := hashString content
    match mapLookup cache h with
    | some t => (.ok (version, t), cache)
    | none =>
      match tok content edits with
      | .ok tokens => (.ok (version, tokens), tokenCacheStore cache h tokens)
      | .error e => (.error e, cache)
  else
    match tok content edits with
    | .ok tokens => (.ok (version, tokens), cache)
    | .error e => (.error e, cache)

/-- Completion of the background task: the future becomes ready. -/
def finishHighlightJob (tok : Tokenizer) (st : Editor) : Editor :=
  match st.job with
  | some (.running v content edits) =>
    let r := runHighlightJob tok st.token_cache content edits v
    { st with job := some (.done r.1), token_cache := r.2 }
  | _ => st

/-- The body of `ProcessPendingHighlights` after `highlight_future_.get()`
returned `(job_ver, tokens)`: discard a stale result (relaunching if the dirty
flag was set), otherwise insert the tokens into `token_cache_` under the
current `HashContent()` key, rebuild `tokens_by_line_`, mark every
`line_token_cache_` entry `needs_update`, and relaunch if dirty. -/
def applyHighlightResult (st : Editor) (ver : Nat) (tokens : List SyntaxToken) : Editor :=
  if ver ≠ st.content_version then
    if st.highlight_dirty then updateHighlightingAsync { st with highlight_dirty := false }
    else st
  else
    let cache' := mapInsert st.token_cache (hashContent st.lines) tokens
    let st := { st with
      token_cache := cache'
      tokens_by_line := rebuildTokensByLine st.lines cache' st.tokens_by_line
      line_token_cache := st.line_token_cache.map (fun (c : LineCache) => { c with needs_update := true }) }
    if st.highlight_dirty then updateHighlightingAsync { st with highlight_dirty := false }
    else st

/-- `TextEditor::ProcessPendingHighlights`: a no-op unless the future is ready;
`get()` consumes the future, and if it holds a stored exception that exception
is rethrown (`Except.error`, carrying the state at the throw point — note that
`highlight_pending_ = false` is only executed after a successful `get()`). -/
def processPendingHighlights (st : Editor) : Except Editor Editor :=
  match st.job with
  | some (.done r) =>
    let st := { st with job := none }
    match r with
    | .error _ => .error st
    | .ok (ver, tokens) =>
      .ok (applyHighlightResult { st with highlight_pending := false } ver tokens)
  | _ => .ok st

/-- `while (prefix_len < old_size && prefix_len < new_size && lines_[prefix_len]
== new_lines[prefix_len]) ++prefix_len;` of `SetContent`. -/
def commonPrefixLen : List Str → List Str → Nat
  | a :: as, b :: bs => if a = b then commonPrefixLen as bs + 1 else 0
  | _, _ => 0

/-- The suffix loop of `SetContent`: it extends while the distance-from-end
lines agree and both `old_size - prefix_len` and `new_size - prefix_len` are
not yet reached, i.e. it computes the raw common suffix length clamped by both
bounds. -/
def suffixLenFrom (old new : List Str) (p : Nat) : Nat :=
  min (commonPrefixLen old.reverse new.reverse) (min (old.length - p) (new.length - p))

/-- `TextEditor::SetContent` after the `getline` split: diff by common
prefix/suffix, rebuild the per-line caches (prefix copied by position, suffix
copied re-indexed by the size delta, interior default-constructed then
invalidated), swap in the new lines, reset cursor and selection, and queue the
changed range when it is non-empty. -/
def setContentLines (st : Editor) (new_lines : List Str) : Editor :=
  let old_size := st.lines.length
  let new_size := new_lines.length
  let p := commonPrefixLen st.lines new_lines
  let s := suffixLenFrom st.lines new_lines p
  let cache' := st.line_token_cache.take p
      ++ List.replicate (new_size - s - p) invalidatedEntry
      ++ st.line_token_cache.drop (old_size - s)
  let tbl' := st.tokens_by_line.take p
      ++ List.replicate (new_size - s - p) ([] : List SyntaxToken)
      ++ st.tokens_by_line.drop (old_size - s)
  let st := { st with
    lines := new_lines
    line_token_cache := cache'
    tokens_by_line := tbl'
    cursor := ⟨0, 0⟩
    has_selection := false }
  if p < new_size - s then
    updateContentFromLines st (p : Int) ((new_size : Int) - (s : Int) - 1)
  else st

/-- `TextEditor::SetContent(content)`: `getline` split (with the same empty
fallback as the constructor), then the diff above. -/
def setContent (st : Editor) (content : Str) : Editor :=
  setContentLines st (loadLines content)

/-- `TextEditor::SaveUndo`: push `(GetContent(), cursor_)`, trim the oldest
entries beyond `MAX_UNDO_STACK = 256` (the stack is modelled newest-first, so
trimming the oldest is `take 256`), clear the redo stack. -/
def saveUndo (st : Editor) : Editor :=
  { st with
    undo_stack := (({ content := getContent st.lines, cursor := st.cursor } : EditorState)
      :: st.undo_stack).take 256
    redo_stack := [] }

/-- `TextEditor::Undo`: no-op on an empty stack; otherwise push the current
state on the redo stack, pop, `SetContent` the snapshot, then restore the
snapshot cursor. -/
def undo (st : Editor) : Editor :=
  match st.undo_stack with
  | [] => st
  | state :: rest =>
    let st := { st with
      redo_stack := ({ content := getContent st.lines, cursor := st.cursor } : EditorState)
        :: st.redo_stack
      undo_stack := rest }
    let st := setContent st state.content
    { st with cursor := state.cursor }

/-- `TextEditor::Redo`, symmetric to `undo`. -/
def redo (st : Editor) : Editor :=
  match st.redo_stack with
  | [] => st
  | state :: rest =>
    let st := { st with
      undo_stack := ({ content := getContent st.lines, cursor := st.cursor } : EditorState)
        :: st.undo_stack
      redo_stack := rest }
    let st := setContent st state.content
    { st with cursor := state.cursor }

/-- `TextEditor::EraseLineCaches(idx, n)` (the `tokens_by_line_` half shares the
same erase). -/
def eraseLineCaches (st : Editor) (idx n : Nat) : Editor :=
  { st with
    line_token_cache := st.line_token_cache.take idx ++ st.line_token_cache.drop (idx + n)
    tokens_by_line := st.tokens_by_line.take idx ++ st.tokens_by_line.drop (idx + n) }

/-- In-range model of `std::string::insert(pos, 1, c)`. -/
def strInsertAt (l : Str) (pos : Int) (c : Char) : Str :=
  l.take pos.toNat ++ c :: l.drop pos.toNat

/-- In-range model of `std::string::erase(pos, count)`. -/
def strEraseRange (l : Str) (pos count : Nat) : Str :=
  l.take pos ++ l.drop (pos + count)

/-- `TextEditor::DeleteSelectedText`. -/
def deleteSelectedText (st : Editor) : Editor :=
  if ¬st.has_selection then st
  else
    let st := saveUndo st
    let start := cursorMin st.cursor st.selection_start
    let stop := cursorMax st.cursor st.selection_start
    let removed := (stop.line - start.line).toNat
    if start.line = stop.line then
      let line := st.lines.getD start.line.toNat []
      let line' := strEraseRange line start.column.toNat (stop.column - start.column).toNat
      let st := { st with lines := st.lines.set start.line.toNat line' }
      let st := eraseLineCaches st (start.line.toNat + 1) removed
      let st := updateContentFromLines st start.line start.line
      { st with cursor := start, has_selection := false }
    else
      let sline := st.lines.getD start.line.toNat []
      let eline := st.lines.getD stop.line.toNat []
      let merged := sline.take start.column.toNat ++ eline.drop stop.column.toNat
      let lines' := (st.lines.set start.line.toNat merged).take (start.line.toNat + 1)
        ++ (st.lines.set start.line.toNat merged).drop (stop.line.toNat + 1)
      let st := { st with lines := lines' }
      let st := eraseLineCaches st (start.line.toNat + 1) removed
      let st := updateContentFromLines st start.line ((st.lines.length : Int) - 1)
      { st with cursor := start, has_selection := false }

/-- `TextEditor::InsertChar(c)`; the `elapsed > TYPING_DEBOUNCE` test is the
boolean input `expired` (the wall clock is external to the embedding). -/
def insertChar (st : Editor) (c : Char) (expired : Bool) : Editor :=
  let st := if st.has_selection then { (deleteSelectedText st) with typing_session := false } else st
  let st :=
    if ¬st.typing_session || expired then { (saveUndo st) with typing_session := true } else st
  let line := st.lines.getD st.cursor.line.toNat []
  let st := { st with
    lines := st.lines.set st.cursor.line.toNat (strInsertAt line st.cursor.column c)
    cursor := ⟨st.cursor.line, st.cursor.column + 1⟩ }
  updateContentFromLines st st.cursor.line st.cursor.line

/-- `TextEditor::DeleteChar` (backspace). -/
def deleteChar (st : Editor) (expired : Bool) : Editor :=
  if st.has_selection then { (deleteSelectedText st) with deleting_session := false }
  else if st.cursor.column = 0 ∧ st.cursor.line = 0 then st
  else
    let st :=
      if ¬st.deleting_session || expired then { (saveUndo st) with deleting_session := true }
      else st
    if st.cursor.column = 0 then
      let nl := st.cursor.line - 1
      let prev := st.lines.getD nl.toNat []
      let curr := st.lines.getD st.cursor.line.toNat []
      let lines0 := st.lines.set nl.toNat (prev ++ curr)
      let lines' := lines0.take (nl.toNat + 1) ++ lines0.drop (nl.toNat + 2)
      let st := { st with lines := lines', cursor := ⟨nl, (prev.length : Int)⟩ }
      let st := eraseLineCaches st (nl.toNat + 1) 1
      updateContentFromLines st nl ((st.lines.length : Int) - 1)
    else
      let line := st.lines.getD st.cursor.line.toNat []
      let line' := strEraseRange line (st.cursor.column - 1).toNat 1
      let st := { st with
        lines := st.lines.set st.cursor.line.toNat line'
        cursor := ⟨st.cursor.line, st.cursor.column - 1⟩ }
      updateContentFromLines st st.cursor.line st.cursor.line

/-- `TextEditor::MoveCursorLeft`. -/
def moveCursorLeft (st : Editor) : Editor :=
  if 0 < st.cursor.column then { st with cursor := ⟨st.cursor.line, st.cursor.column - 1⟩ }
  else if 0 < st.cursor.line then
    { st with cursor :=
        ⟨st.cursor.line - 1, ((st.lines.getD (st.cursor.line - 1).toNat []).length : Int)⟩ }
  else st

/-- `TextEditor::MoveCursorRight`. -/
def moveCursorRight (st : Editor) : Editor :=
  if st.cursor.column < ((st.lines.getD st.cursor.line.toNat []).length : Int) then
    { st with cursor := ⟨st.cursor.line, st.cursor.column + 1⟩ }
  else if st.cursor.line < (st.lines.length : Int) - 1 then
    { st with cursor := ⟨st.cursor.line + 1, 0⟩ }
  else st

/-- `TextEditor::MoveCursorUp`. -/
def moveCursorUp (st : Editor) : Editor :=
  if 0 < st.cursor.line then
    { st with cursor :=
        ⟨st.cursor.line - 1,
         min st.cursor.column ((st.lines.getD (st.cursor.line - 1).toNat []).length : Int)⟩ }
  else st

/-- `TextEditor::MoveCursorDown`. -/
def moveCursorDown (st : Editor) : Editor :=
  if st.cursor.line < (st.lines.length : Int) - 1 then
    { st with cursor :=
        ⟨st.cursor.line + 1,
         min st.cursor.column ((st.lines.getD (st.cursor.line + 1).toNat []).length : Int)⟩ }
  else st

/-- The `TextEditor` constructor on the file's contents: `getline` split with
empty fallback, cursor at the origin, caches sized to the line count, then the
initial `UpdateHighlightingAsync()` (the semantic lane's initial launch is
outside this model). -/
def loadEditor (text : Str) : Editor :=
  let lines := loadLines text
  updateHighlightingAsync
    { lines := lines
      tokens_by_line := List.replicate lines.length []
      line_token_cache := List.replicate lines.length {} }

/-- The single default-styled token `GetVisibleTokensForLine` synthesizes for a
non-empty line with no real tokens: `{line_number + 1, 0, length, Default}`. -/
def defaultLineToken (lineNo : Nat) (line : Str) : SyntaxToken :=
  { line := (lineNo : Int) + 1, column := 0, length := (line.length : Int), type := .Default }

/-- `TextEditor::FilterVisibleTokens`. -/
def filterVisibleTokens (st : Editor) (tokens : List SyntaxToken) : List SyntaxToken :=
  tokens.filter (fun t =>
    decide (st.visible_column_start ≤ t.column + t.length) &&
    decide (t.column ≤ st.visible_column_start + st.visible_column_width))

/-- `TextEditor::GetVisibleTokensForLine(line_number)`: bounds check, fast path
on a valid up-to-date hash-matching entry, else adopt the global per-line
distribution when non-empty, else synthesize the default token (non-empty lines
only) for a never-valid entry; returns the filtered tokens and the mutated
state. -/
def getVisibleTokensForLine (st : Editor) (n : Int) : List SyntaxToken × Editor :=
  if n < 0 ∨ (st.lines.length : Int) ≤ n then ([], st)
  else
    let idx := n.toNat
    let cache := st.line_token_cache.getD idx {}
    let lh := hashLine (st.lines.getD idx [])
    if cache.is_valid ∧ ¬cache.needs_update ∧ cache.line_hash = lh then
      (filterVisibleTokens st cache.tokens, st)
    else if idx < st.tokens_by_line.length then
      let bucket := st.tokens_by_line.getD idx []
      if ¬bucket.isEmpty then
        let c' : LineCache :=
          { line_hash := lh, tokens := bucket, is_valid := true, needs_update := false }
        (filterVisibleTokens st bucket,
         { st with line_token_cache := st.line_token_cache.set idx c' })
      else if ¬cache.is_valid then
        let toks :=
          if ¬(st.lines.getD idx []).isEmpty then [defaultLineToken idx (st.lines.getD idx [])]
          else []
        let c' : LineCache :=
          { line_hash := lh, tokens := toks, is_valid := true, needs_update := true }
        (filterVisibleTokens st toks,
         { st with line_token_cache := st.line_token_cache.set idx c' })
      else (filterVisibleTokens st cache.tokens, st)
    else (filterVisibleTokens st cache.tokens, st)

/-- The operations of the step relation below: the content-affecting public
operations, cursor motion, the draw-time per-line query, and the two
job-lifecycle transitions (background completion, foreground poll). -/
inductive Step : Editor → Editor → Prop where
  | insertChar (st : Editor) (c : Char) (expired : Bool) : Step st (insertChar st c expired)
  | deleteChar (st : Editor) (expired : Bool) : Step st (deleteChar st expired)
  | deleteSelected (st : Editor) : Step st (deleteSelectedText st)
  | moveLeft (st : Editor) : Step st (moveCursorLeft st)
  | moveRight (st : Editor) : Step st (moveCursorRight st)
  | moveUp (st : Editor) : Step st (moveCursorUp st)
  | moveDown (st : Editor) : Step st (moveCursorDown st)
  | setContent (st : Editor) (text : Str) : Step st (setContent st text)
  | undoStep (st : Editor) : Step st (undo st)
  | redoStep (st : Editor) : Step st (redo st)
  | queryLine (st : Editor) (n : Int) : Step st (getVisibleTokensForLine st n).2
  | finish (st : Editor) (tok : Tokenizer) : Step st (finishHighlightJob tok st)
  | pollOk (st st' : Editor) : processPendingHighlights st = .ok st' → Step st st'
  | pollThrow (st st' : Editor) : processPendingHighlights st = .error st' → Step st st'

/-- States reachable from a freshly constructed editor. -/
inductive Reach : Editor → Prop where
  | init (text : Str) : Reach (loadEditor text)
  | step {st st' : Editor} : Reach st → Step st st' → Reach st'

/-- The UTF-8 byte-order mark, as the three bytes the source compares against. -/
def bomBytes : Str := [Char.ofNat 0xEF, Char.ofNat 0xBB, Char.ofNat 0xBF]

/-- Did the poll return normally (as opposed to rethrowing a stored exception)? -/
def pollReturnedNormally (st : Editor) : Bool :=
  match processPendingHighlights st with
  | .ok _ => true
  | .error _ => false

/-- The state after the poll, whether it returned or threw. -/
def pollOutState (st : Editor) : Editor :=
  match processPendingHighlights st with
  | .ok s => s
  | .error s => s

/-- A session whose highlight job completed by throwing (tokenizer failure):
the future is ready and holds the stored exception. -/
def c2ThrowState : Editor :=
  { lines := [['a']]
    highlight_pending := true
    job := some (.done (.error ()))
    tokens_by_line := [[]]
    line_token_cache := [{}] }

/-- A session with one empty line whose cache entry was never valid and whose
global token distribution has nothing for line 0. -/
def c9EmptyLineState : Editor :=
  { lines := [[]], tokens_by_line := [[]], line_token_cache := [{}] }

/-- A session with the single non-empty line `"ab"`, used to witness the
default-token synthesis. -/
def c9PlainLineState : Editor :=
  { lines := [['a', 'b']], tokens_by_line := [[]], line_token_cache := [{}] }

/-- The C6 failing run: load `"a\n\n"` (two lines, the second empty), move the
cursor to line 1, type `x` (snapshotting `("a\n", (1,0))` for undo), then undo.
`SetContent("a\n")` rebuilds a one-line buffer, and `Undo` then restores the
snapshot cursor `(1, 0)`, whose line index is out of range. -/
def c6Run : Editor := undo (insertChar (moveCursorDown (loadEditor ("a\n\n".toList))) 'x' true)

/-- A ten-entry token cache with distinct keys `0..9`, used to witness the
overflow-clears-everything policy at bound 10. -/
def c7FullCache : List (Nat × List SyntaxToken) := (List.range 10).map (fun i => (i, []))

/-- A five-entry semantic cache with distinct keys `0..4`. -/
def c7FullSemCache : List (Nat × SemMap) := (List.range 5).map (fun i => (i, []))

/-- A one-token result for a one-line buffer, used to witness the poll's apply
path. -/
def c1Token : SyntaxToken := { line := 1, column := 0, length := 1, type := .Ident }

/-- A session whose highlight job finished successfully with version 0 (the
current version), delivering `[c1Token]`. -/
def c1ReadyState : Editor :=
  { lines := [['a']]
    content_version := 0
    highlight_pending := true
    job := some (.done (.ok (0, [c1Token])))
    tokens_by_line := [[]]
    line_token_cache := [{ line_hash := 7, tokens := [], is_valid := true, needs_update := false }] }

/-- The same session with the buffer already advanced to version 1, so the
delivered version-0 result is stale. -/
def c1StaleState : Editor :=
  { c1ReadyState with content_version := 1 }

/-- A stale-completion session with the dirty flag set, used to witness the
immediate relaunch. -/
def c5DirtyState : Editor :=
  { c1StaleState with highlight_dirty := true }

/-- A pending-job session used to witness the launch guard. -/
def c5PendingState : Editor :=
  { lines := [['a']], highlight_pending := true,
    job := some (.running 0 ['a'] []), tokens_by_line := [[]], line_token_cache := [{}] }

/-- A 10-line buffer `"0".."9"` with per-line caches, whose line 5 will be
replaced, used to witness the diff reuse. -/
def c4TenLineState : Editor :=
  { lines := (List.range 10).map (fun i => [Char.ofNat (48 + i)])
    line_token_cache := (List.range 10).map (fun i => { line_hash := i })
    tokens_by_line := List.replicate 10 [] }

/-- The same 10 lines with line 5 changed to `"x"`. -/
def c4ChangedLines : List Str :=
  (List.range 10).map (fun i => if i = 5 then ['x'] else [Char.ofNat (48 + i)])

/-- The lane discipline tying the job slot to the atomic flag: whenever a job
is in flight (or its result not yet consumed), `highlight_pending_` is set —
so the launch guard `highlight_pending_.exchange(true)` can never overwrite an
in-flight job. -/
def JobFlagInv (st : Editor) : Prop :=
  st.job.isSome = true → st.highlight_pending = true

/-- How one step may change the (job slot, pending flag) pair: either both are
untouched, or the step launched (or kept) a pending lane — the only two shapes
any foreground operation produces.  Used to propagate `JobFlagInv`. -/
def JobShape (st st' : Editor) : Prop :=
  (st'.job = st.job ∧ st'.highlight_pending = st.highlight_pending) ∨
    st'.highlight_pending = true

/-- A session with one-entry undo and redo stacks whose snapshots carry cursor
`(0, 1)`, used to witness cursor restoration after `SetContent`. -/
def c10State : Editor :=
  { lines := [['a']]
    undo_stack := [{ content := ['b'], cursor := ⟨0, 1⟩ }]
    redo_stack := [{ content := ['c'], cursor := ⟨0, 1⟩ }]
    tokens_by_line := [[]]
    line_token_cache := [{}] }

/-! ### Frame lemmas for the launch and mark-dirty steps -/

theorem uha_lines (st : Editor) : (updateHighlightingAsync st).lines = st.lines := by
  unfold updateHighlightingAsync; split <;> rfl

theorem uha_cursor (st : Editor) : (updateHighlightingAsync st).cursor = st.cursor := by
  unfold updateHighlightingAsync; split <;> rfl

theorem uha_selection (st : Editor) :
    (updateHighlightingAsync st).has_selection = st.has_selection := by
  unfold updateHighlightingAsync; split <;> rfl

theorem uha_token_cache (st : Editor) :
    (updateHighlightingAsync st).token_cache = st.token_cache := by
  unfold updateHighlightingAsync; split <;> rfl

theorem uha_tokens_by_line (st : Editor) :
    (updateHighlightingAsync st).tokens_by_line = st.tokens_by_line := by
  unfold updateHighlightingAsync; split <;> rfl

theorem uha_line_token_cache (st : Editor) :
    (updateHighlightingAsync st).line_token_cache = st.line_token_cache := by
  unfold updateHighlightingAsync; split <;> rfl

theorem uha_content_version (st : Editor) :
    (updateHighlightingAsync st).content_version = st.content_version := by
  unfold updateHighlightingAsync; split <;> rfl

theorem uha_of_pending {st : Editor} (h : st.highlight_pending = true) :
    updateHighlightingAsync st = st := by
  unfold updateHighlightingAsync; rw [if_pos h]

theorem uha_launches {st : Editor} (h : st.highlight_pending = false) :
    updateHighlightingAsync st =
      { st with
        highlight_pending := true
        pending_edits := []
        job := some (.running st.content_version (getContent st.lines) st.pending_edits) } := by
  unfold updateHighlightingAsync; rw [if_neg (by simp [h])]

theorem ucfl_cursor (st : Editor) (a b : Int) :
    (updateContentFromLines st a b).cursor = st.cursor := by
  unfold updateContentFromLines
  dsimp only
  split
  · rfl
  · rw [uha_cursor]

theorem ucfl_selection (st : Editor) (a b : Int) :
    (updateContentFromLines st a b).has_selection = st.has_selection := by
  unfold updateContentFromLines
  dsimp only
  split
  · rfl
  · rw [uha_selection]

theorem ucfl_lines (st : Editor) (a b : Int) :
    (updateContentFromLines st a b).lines = st.lines := by
  unfold updateContentFromLines
  dsimp only
  split
  · rfl
  · rw [uha_lines]

theorem ucfl_of_pending {st : Editor} (a b : Int) (h : st.highlight_pending = true) :
    (updateContentFromLines st a b).job = st.job ∧
    (updateContentFromLines st a b).highlight_pending = true ∧
    (updateContentFromLines st a b).highlight_dirty = true := by
  unfold updateContentFromLines
  dsimp only
  rw [if_pos (by simpa using h)]
  exact ⟨rfl, by simpa using h, rfl⟩

/-! ### Association-list lemmas -/

theorem mapLookup_mapInsert_self (m : List (Nat × α)) (k : Nat) (v : α) :
    mapLookup (mapInsert m k v) k = some v := by
  unfold mapInsert
  split
  · rename_i hmem
    induction m with
    | nil => simp at hmem
    | cons p m ih =>
      simp only [List.any_cons, Bool.or_eq_true] at hmem
      by_cases hp : p.1 == k
      · simp [mapLookup, List.find?, hp]
      · have : m.any (fun p => p.1 == k) = true := by
          rcases hmem with h | h
          · exact absurd h (by simp_all)
          · exact h
        simpa [mapLookup, List.find?, hp] using ih this
  · induction m with
    | nil => simp [mapLookup, List.find?]
    | cons p m ih =>
      rename_i hmem
      simp only [List.any_cons, Bool.or_eq_true, not_or] at hmem
      have hp : (p.1 == k) = false := by simpa using hmem.1
      simpa [mapLookup, List.find?, hp] using ih (by simpa using hmem.2)

/-! ### Claim C7 -/

/-- C7: for the token cache (bound 10) and the semantic cache (bound 5),
whenever an insert makes the size exceed the bound the whole cache is cleared
and only the newly inserted entry remains; in particular, at a bound of 2,
inserting distinct hashes H1, H2, H3 in order leaves exactly the H3 entry. -/
theorem C7_cache_clear_on_overflow :
    (∀ (m : List (Nat × List SyntaxToken)) (k : Nat) (v : List SyntaxToken),
        (mapInsert m k v).length > 10 → tokenCacheStore m k v = [(k, v)]) ∧
    (∀ (m : List (Nat × SemMap)) (k : Nat) (v : SemMap),
        (mapInsert m k v).length > 5 → semanticCacheStore m k v = [(k, v)]) ∧
    (∀ (h1 h2 h3 : Nat) (v1 v2 v3 : List SyntaxToken),
        h1 ≠ h2 → h1 ≠ h3 → h2 ≠ h3 →
        boundedStore 2 (boundedStore 2 (boundedStore 2 [] h1 v1) h2 v2) h3 v3 = [(h3, v3)]) := by
  refine ⟨?_, ?_, ?_⟩
  · intro m k v h
    unfold tokenCacheStore boundedStore
    dsimp only
    rw [if_pos h]
    rfl
  · intro m k v h
    unfold semanticCacheStore boundedStore
    dsimp only
    rw [if_pos h]
    rfl
  · intro h1 h2 h3 v1 v2 v3 h12 h13 h23
    have b12 : (h1 == h2) = false := by simpa using h12
    have b13 : (h1 == h3) = false := by simpa using h13
    have b23 : (h2 == h3) = false := by simpa using h23
    have e1 : boundedStore 2 ([] : List (Nat × List SyntaxToken)) h1 v1 = [(h1, v1)] := rfl
    have e2 : boundedStore 2 [(h1, v1)] h2 v2 = [(h1, v1), (h2, v2)] := by
      simp [boundedStore, mapInsert, b12]
    have e3 : boundedStore 2 [(h1, v1), (h2, v2)] h3 v3 = [(h3, v3)] := by
      simp [boundedStore, mapInsert, b13, b23]
    rw [e1, e2, e3]

/-- Witness for C7 at concrete inputs: an eleventh distinct key clears the
bound-10 token cache, a sixth clears the bound-5 semantic cache, and the
H1–H3 scenario at bound 2. -/
theorem C7_cache_clear_on_overflow_witness :
    tokenCacheStore c7FullCache 100 [] = [(100, [])] ∧
    semanticCacheStore c7FullSemCache 100 [] = [(100, [])] ∧
    boundedStore 2 (boundedStore 2 (boundedStore 2 [] 1 ([] : List SyntaxToken)) 2 []) 3 [] =
      [(3, [])] :=
  ⟨C7_cache_clear_on_overflow.1 c7FullCache 100 [] (by decide),
   C7_cache_clear_on_overflow.2.1 c7FullSemCache 100 [] (by decide),
   C7_cache_clear_on_overflow.2.2 1 2 3 [] [] [] (by decide) (by decide) (by decide)⟩

/-! ### Claim C10 -/

/-- C10: `SetContent` unconditionally resets the cursor to the origin and
clears the selection (even for identical content, since the reset is outside
every branch), so `Undo`/`Redo` restore the snapshot cursor themselves after
calling it. -/
theorem C10_setContent_resets_cursor_and_selection :
    (∀ (st : Editor) (content : Str),
        (setContent st content).cursor = ⟨0, 0⟩ ∧
        (setContent st content).has_selection = false) ∧
    (∀ (st : Editor) (snap : EditorState) (rest : List EditorState),
        st.undo_stack = snap :: rest → (undo st).cursor = snap.cursor) ∧
    (∀ (st : Editor) (snap : EditorState) (rest : List EditorState),
        st.redo_stack = snap :: rest → (redo st).cursor = snap.cursor) := by
  refine ⟨?_, ?_, ?_⟩
  · intro st content
    unfold setContent setContentLines
    dsimp only
    constructor
    · split
      · rw [ucfl_cursor]
      · rfl
    · split
      · rw [ucfl_selection]
      · rfl
  · intro st snap rest h
    unfold undo
    rw [h]
  · intro st snap rest h
    unfold redo
    rw [h]

/-- Witness for C10: on a session with singleton undo/redo stacks holding
cursor `(0, 1)`, `SetContent` homes the cursor while `Undo`/`Redo` restore the
snapshot cursor. -/
theorem C10_setContent_resets_cursor_and_selection_witness :
    (setContent c10State ['z']).cursor = ⟨0, 0⟩ ∧
    (undo c10State).cursor = ⟨0, 1⟩ ∧
    (redo c10State).cursor = ⟨0, 1⟩ :=
  ⟨(C10_setContent_resets_cursor_and_selection.1 c10State ['z']).1,
   C10_setContent_resets_cursor_and_selection.2.1 c10State
     { content := ['b'], cursor := ⟨0, 1⟩ } [] rfl,
   C10_setContent_resets_cursor_and_selection.2.2 c10State
     { content := ['c'], cursor := ⟨0, 1⟩ } [] rfl⟩

/-! ### Claim C2 -/

/-- C2 counterexample: with a job that completed by throwing, the poll does not
return normally — the stored exception is rethrown out of
`ProcessPendingHighlights` (the claimed catch at the job boundary does not
exist), and `highlight_pending` remains `true` instead of becoming `false`, so
the lane does not return to idle. -/
theorem C2_counterexample_throw_escapes_poll :
    pollReturnedNormally c2ThrowState = false ∧
    (pollOutState c2ThrowState).highlight_pending = true ∧
    c2ThrowState.highlight_pending = true :=
  ⟨rfl, rfl, rfl⟩

/-- C2 amended: the coordinator does not catch tokenizer failures.  A job that
completed by throwing causes `ProcessPendingHighlights` to rethrow at `get()`:
the future is consumed but `highlight_pending_` is never reset (the lane stays
pending, not idle), and none of the token cache, the per-line token cache or
`tokens_by_line` is mutated by the poll. -/
theorem C2_tokenizer_throw_propagates (st : Editor)
    (h : st.job = some (.done (.error ()))) :
    processPendingHighlights st = .error { st with job := none } ∧
    ({ st with job := none } : Editor).highlight_pending = st.highlight_pending ∧
    ({ st with job := none } : Editor).line_token_cache = st.line_token_cache ∧
    ({ st with job := none } : Editor).token_cache = st.token_cache ∧
    ({ st with job := none } : Editor).tokens_by_line = st.tokens_by_line := by
  refine ⟨?_, rfl, rfl, rfl, rfl⟩
  unfold processPendingHighlights
  rw [h]

/-- Witness for C2's amended theorem at the concrete throwing session. -/
theorem C2_tokenizer_throw_propagates_witness :
    processPendingHighlights c2ThrowState = .error { c2ThrowState with job := none } :=
  (C2_tokenizer_throw_propagates c2ThrowState rfl).1

/-! ### Line splitting / joining lemmas -/

theorem splitGetline_ne_nil {s : Str} (h : s ≠ []) : splitGetline s ≠ [] := by
  match s with
  | [] => exact absurd rfl h
  | c :: t =>
    simp only [splitGetline]
    split
    · split <;> simp
    · split <;> simp

theorem splitGetline_no_lf : ∀ s : Str, s ≠ [] → '\n' ∉ s → splitGetline s = [s]
  | [], h, _ => absurd rfl h
  | c :: t, _, hlf => by
    have hc : ¬c = '\n' := by intro hcc; exact hlf (hcc ▸ List.mem_cons_self c t)
    have ht : '\n' ∉ t := fun hm => hlf (List.mem_cons_of_mem c hm)
    simp only [splitGetline, if_neg hc]
    match ht2 : t with
    | [] => rfl
    | d :: u =>
      rw [splitGetline_no_lf (d :: u) (by simp) (ht2 ▸ ht)]

theorem splitGetline_append_lf : ∀ l r : Str, '\n' ∉ l →
    splitGetline (l ++ '\n' :: r) = l :: splitGetline r
  | [], r, _ => by
    simp only [List.nil_append, splitGetline, if_pos rfl]
    match r with
    | [] => rfl
    | c :: t => rfl
  | c :: l, r, hlf => by
    have hc : ¬c = '\n' := by intro hcc; exact hlf (hcc ▸ List.mem_cons_self c l)
    have hl : '\n' ∉ l := fun hm => hlf (List.mem_cons_of_mem c hm)
    simp only [List.cons_append, splitGetline, if_neg hc]
    rw [show l.append ('\n' :: r) = l ++ '\n' :: r from rfl]
    rw [splitGetline_append_lf l r hl]

theorem splitGetline_head : ∀ s : Str, s ≠ [] →
    ∃ rest, splitGetline s = s.takeWhile (fun c => c != '\n') :: rest
  | [], h => absurd rfl h
  | c :: t, _ => by
    by_cases hc : c = '\n'
    · subst hc
      simp only [splitGetline, if_pos rfl, List.takeWhile]
      match t with
      | [] => exact ⟨[], by simp⟩
      | d :: u => exact ⟨splitGetline (d :: u), by simp⟩
    · simp only [splitGetline, if_neg hc, List.takeWhile]
      rw [show (c != '\n') = true by simpa using hc]
      match ht : t with
      | [] => exact ⟨[], rfl⟩
      | d :: u =>
        obtain ⟨rest, hrest⟩ := splitGetline_head (d :: u) (by simp)
        rw [hrest]
        exact ⟨rest, by simp⟩

theorem takeWhile_append_all (p : Char → Bool) :
    ∀ l r : Str, (∀ c ∈ l, p c = true) → (l ++ r).takeWhile p = l ++ r.takeWhile p
  | [], r, _ => by simp
  | c :: l, r, h => by
    have hc : p c = true := h c (List.mem_cons_self c l)
    simp only [List.cons_append, List.takeWhile, hc]
    exact congrArg (c :: ·) (takeWhile_append_all p l r (fun d hd => h d (List.mem_cons_of_mem c hd)))

theorem getContent_eq_intercalate : ∀ lines : List Str,
    getContent lines = List.intercalate ['\n'] lines
  | [] => by simp [getContent, List.intercalate]
  | [l] => by simp [getContent, List.intercalate]
  | l :: l' :: ls => by
    have ih := getContent_eq_intercalate (l' :: ls)
    simp only [getContent] at ih ⊢
    rw [ih]
    simp [List.intercalate, List.intersperse]

theorem loadLines_getContent : ∀ lines : List Str, lines ≠ [] →
    (∀ l ∈ lines, '\n' ∉ l) →
    (lines.length = 1 ∨ lines.getLast? ≠ some []) →
    loadLines (getContent lines) = lines
  | [], h, _, _ => absurd rfl h
  | [l], _, hlf, _ => by
    match hl : l with
    | [] => rfl
    | c :: t =>
      have hlfl : '\n' ∉ c :: t := hlf (c :: t) (List.mem_singleton_self _)
      have hsplit := splitGetline_no_lf (c :: t) (by simp) hlfl
      show loadLines (getContent [c :: t]) = [c :: t]
      have hg : getContent [c :: t] = c :: t := rfl
      rw [hg]
      unfold loadLines
      rw [hsplit]
      rfl
  | l :: l' :: ls, _, hlf, hlast => by
    have hl : '\n' ∉ l := hlf l (List.mem_cons_self l (l' :: ls))
    have hrec : loadLines (getContent (l' :: ls)) = l' :: ls := by
      apply loadLines_getContent (l' :: ls) (by simp)
        (fun x hx => hlf x (List.mem_cons_of_mem l hx))
      rcases hlast with h1 | h2
      · simp at h1
      · right
        rwa [List.getLast?_cons_cons] at h2
    have hcontent : getContent (l :: l' :: ls) = l ++ '\n' :: getContent (l' :: ls) := rfl
    rw [hcontent]
    unfold loadLines
    rw [splitGetline_append_lf l (getContent (l' :: ls)) hl]
    simp only [List.isEmpty_cons, if_neg (by simp : ¬false = true)]
    congr 1
    by_cases hg : getContent (l' :: ls) = []
    · exfalso
      rw [hg] at hrec
      have h0 : ([[]] : List Str) = l' :: ls := hrec
      injection h0 with h1 h2
      rcases hlast with hone | h2g
      · simp at hone
      · rw [List.getLast?_cons_cons] at h2g
        apply h2g
        rw [← h1, ← h2]
        rfl
    · unfold loadLines at hrec
      rwa [if_neg (by simpa [List.isEmpty_iff] using splitGetline_ne_nil hg)] at hrec

/-! ### Claim C3 -/

/-- C3 counterexample: the document `["a", ""]` — produced directly by loading
the text `"a\n\n"`, i.e. reachable with zero edits — serializes to `"a\n"`,
which loads back as the single line `["a"]`: `load(serialize(doc)) ≠ doc.lines`
(the `getline` loop drops the trailing empty line). -/
theorem C3_counterexample_roundtrip_fails :
    loadLines ("a\n\n".toList) = [['a'], []] ∧
    getContent [['a'], []] = ['a', '\n'] ∧
    loadLines (getContent (loadLines ("a\n\n".toList))) = [['a']] ∧
    loadLines (getContent (loadLines ("a\n\n".toList))) ≠ loadLines ("a\n\n".toList) := by
  exact ⟨by decide, by decide, by decide, by decide⟩

/-- C3 amended: `GetContent` always equals the single-line-feed join of the
lines with no trailing separator; and the round trip
`load(serialize(doc)) = doc.lines` holds provided no line contains a line feed
and the document is not a multi-line document with a trailing empty line (the
case the counterexample exhibits). -/
theorem C3_serialize_join_and_conditional_roundtrip :
    (∀ lines : List Str, getContent lines = List.intercalate ['\n'] lines) ∧
    (∀ lines : List Str, lines ≠ [] → (∀ l ∈ lines, '\n' ∉ l) →
        (lines.length = 1 ∨ lines.getLast? ≠ some []) →
        loadLines (getContent lines) = lines) :=
  ⟨getContent_eq_intercalate, loadLines_getContent⟩

/-- Witness for C3's amended theorem on the two-line document `["a", "b"]`. -/
theorem C3_serialize_join_and_conditional_roundtrip_witness :
    loadLines (getContent [['a'], ['b']]) = [['a'], ['b']] :=
  C3_serialize_join_and_conditional_roundtrip.2 [['a'], ['b']]
    (by decide) (by decide) (by decide)

/-! ### Claim C8 -/

/-- C8 counterexample: loading the bytes `EF BB BF 'a'` keeps the byte-order
mark at the start of the first line — the editor's load paths do not strip it
(only `SyntaxHighlighter::Impl::LoadFile` does, which is not the constructor's
or `SetContent`'s splitting). -/
theorem C8_counterexample_bom_not_stripped :
    loadLines (bomBytes ++ ['a']) = [bomBytes ++ ['a']] ∧
    loadLines (bomBytes ++ ['a']) ≠ loadLines ['a'] := by
  exact ⟨by decide, by decide⟩

/-- C8 amended: loading splits on line-feed boundaries and always yields at
least one (possibly empty) line — the empty input loads as a single empty
line — but a leading byte-order mark is NOT stripped: it stays at the front of
the first line. -/
theorem C8_load_splits_without_bom_strip :
    (∀ s : Str, 1 ≤ (loadLines s).length) ∧
    (loadLines [] = [[]]) ∧
    (∀ l r : Str, '\n' ∉ l → splitGetline (l ++ '\n' :: r) = l :: splitGetline r) ∧
    (∀ s : Str, s ≠ [] → '\n' ∉ s → loadLines s = [s]) ∧
    (∀ s : Str, (loadLines (bomBytes ++ s)).getD 0 [] =
        bomBytes ++ s.takeWhile (fun c => c != '\n')) := by
  refine ⟨?_, rfl, splitGetline_append_lf, ?_, ?_⟩
  · intro s
    unfold loadLines
    dsimp only
    split
    · simp
    · rename_i h
      have : splitGetline s ≠ [] := by simpa [List.isEmpty_iff] using h
      have := List.length_pos.mpr this
      omega
  · intro s hs hlf
    unfold loadLines
    rw [splitGetline_no_lf s hs hlf]
    rfl
  · intro s
    obtain ⟨rest, hr⟩ := splitGetline_head (bomBytes ++ s) (by simp [bomBytes])
    unfold loadLines
    rw [hr]
    simp only [List.isEmpty_cons, if_neg (by simp : ¬false = true), List.getD_cons_zero]
    exact takeWhile_append_all _ bomBytes s (by decide)

/-- Witness for C8's amended theorem at concrete inputs: a line-feed split, a
line-feed-free load, and the BOM retention on `EF BB BF 'a'`. -/
theorem C8_load_splits_without_bom_strip_witness :
    splitGetline (['a'] ++ '\n' :: ['b']) = ['a'] :: splitGetline ['b'] ∧
    loadLines ['x'] = [['x']] :=
  ⟨C8_load_splits_without_bom_strip.2.2.1 ['a'] ['b'] (by decide),
   C8_load_splits_without_bom_strip.2.2.2.1 ['x'] (by decide) (by decide)⟩

/-! ### `getD`/`set` helper lemmas -/

theorem getD_set_self (l : List α) (i : Nat) (h : i < l.length) (a d : α) :
    (l.set i a).getD i d = a := by
  rw [List.getD_eq_getElem _ _ (by simpa using h)]
  exact List.getElem_set_self ..

theorem getD_set_ne (l : List α) (i j : Nat) (h : i ≠ j) (a d : α) :
    (l.set i a).getD j d = l.getD j d := by
  by_cases hj : j < l.length
  · rw [List.getD_eq_getElem _ _ (by simpa using hj), List.getD_eq_getElem _ _ hj]
    exact List.getElem_set_ne h ..
  · rw [List.getD_eq_default _ _ (by simpa using Nat.le_of_not_lt hj),
      List.getD_eq_default _ _ (Nat.le_of_not_lt hj)]

/-! ### Claim C9 -/

/-- C9 counterexample: on an empty line with no distributed tokens and a
never-valid cache entry, `GetVisibleTokensForLine` synthesizes NO token at all
(the default token is only pushed when the line is non-empty), while still
marking the entry valid-and-needing-update — so the claimed "single
default-styled token spanning the whole line" does not exist for this line. -/
theorem C9_counterexample_empty_line_no_token :
    (getVisibleTokensForLine c9EmptyLineState 0).1 = [] ∧
    ((getVisibleTokensForLine c9EmptyLineState 0).2.line_token_cache.getD 0 {}).tokens = [] ∧
    ((getVisibleTokensForLine c9EmptyLineState 0).2.line_token_cache.getD 0 {}).is_valid = true ∧
    ((getVisibleTokensForLine c9EmptyLineState 0).2.line_token_cache.getD 0 {}).needs_update
      = true := by
  exact ⟨by decide, by decide, by decide, by decide⟩

/-- C9 amended: when the global distribution has no tokens for an in-range line
and the line's cache entry is not valid, the query marks the entry valid but
still `needs_update` and stores its current line hash; for a NON-EMPTY line it
synthesizes the single default-styled token spanning the whole line (returned
through the viewport filter — in the default viewport it is returned as-is),
while for an empty line the synthesized token list is empty. -/
theorem C9_default_token_synthesis (st : Editor) (n : Nat)
    (hn : n < st.lines.length)
    (htbl : n < st.tokens_by_line.length)
    (hcache : n < st.line_token_cache.length)
    (hbucket : st.tokens_by_line.getD n [] = [])
    (hinvalid : (st.line_token_cache.getD n {}).is_valid = false) :
    ((getVisibleTokensForLine st (n : Int)).2.line_token_cache.getD n {}).is_valid = true ∧
    ((getVisibleTokensForLine st (n : Int)).2.line_token_cache.getD n {}).needs_update = true ∧
    ((getVisibleTokensForLine st (n : Int)).2.line_token_cache.getD n {}).line_hash
      = hashLine (st.lines.getD n []) ∧
    ((getVisibleTokensForLine st (n : Int)).2.line_token_cache.getD n {}).tokens
      = (if (st.lines.getD n []).isEmpty then []
         else [defaultLineToken n (st.lines.getD n [])]) ∧
    (getVisibleTokensForLine st (n : Int)).1
      = filterVisibleTokens st
          (if (st.lines.getD n []).isEmpty then []
           else [defaultLineToken n (st.lines.getD n [])]) ∧
    (st.visible_column_start = 0 → st.visible_column_width = 1000 →
        (st.lines.getD n []).isEmpty = false →
        (getVisibleTokensForLine st (n : Int)).1 = [defaultLineToken n (st.lines.getD n [])]) := by
  have hbnd : ¬((n : Int) < 0 ∨ (st.lines.length : Int) ≤ (n : Int)) := by
    push_neg
    omega
  have key : getVisibleTokensForLine st (n : Int) =
      (filterVisibleTokens st
         (if (st.lines.getD n []).isEmpty then []
          else [defaultLineToken n (st.lines.getD n [])]),
       { st with
           line_token_cache :=
             st.line_token_cache.set n
               ⟨hashLine (st.lines.getD n []),
                (if (st.lines.getD n []).isEmpty then []
                 else [defaultLineToken n (st.lines.getD n [])]),
                true, true⟩ }) := by
    unfold getVisibleTokensForLine
    rw [if_neg hbnd]
    simp only [Int.toNat_natCast]
    rw [if_neg (by intro h; rw [hinvalid] at h; exact absurd h.1 (by simp))]
    rw [if_pos htbl]
    rw [if_neg (not_not_intro (by rw [hbucket]; rfl))]
    rw [if_pos (by rw [hinvalid]; simp)]
    by_cases hemp : (st.lines.getD n []).isEmpty = true
    · rw [if_neg (not_not_intro hemp), if_pos hemp]
    · rw [if_pos hemp, if_neg hemp]
  rw [key]
  dsimp only
  rw [getD_set_self _ _ hcache]
  refine ⟨rfl, rfl, rfl, rfl, rfl, ?_⟩
  intro hvs hvw hne
  rw [hne]
  simp only [Bool.false_eq_true, if_neg (by simp : ¬False)]
  unfold filterVisibleTokens
  rw [hvs, hvw]
  simp [defaultLineToken]

/-- Witness for C9's amended theorem: on the single-line session `"ab"` the
query synthesizes and returns the default token `{1, 0, 2, Default}`. -/
theorem C9_default_token_synthesis_witness :
    ((getVisibleTokensForLine c9PlainLineState 0).2.line_token_cache.getD 0 {}).is_valid
      = true ∧
    (getVisibleTokensForLine c9PlainLineState 0).1
      = [defaultLineToken 0 (c9PlainLineState.lines.getD 0 [])] := by
  have h := C9_default_token_synthesis c9PlainLineState 0
    (by decide) (by decide) (by decide) (by decide) (by decide)
  exact ⟨h.1, h.2.2.2.2.2 rfl rfl (by decide)⟩

/-! ### Claim C6 -/

/-- C6 (code bug): the run `load "a\n\n"`, `MoveCursorDown`, `InsertChar 'x'`,
`Undo` leaves `lines = ["a"]` with the restored snapshot cursor `(1, 0)`, whose
line index is out of range (`1 ≥ len(lines) = 1`): the cursor invariant
`0 ≤ line < len(lines)` is violated (the next `lines_[cursor_.line]` access in
the source is out of bounds, and `InsertChar` would call `std::string::insert`
on a dangling line). -/
theorem C6_cursor_invariant_violated :
    c6Run.lines = [['a']] ∧
    c6Run.cursor = ⟨1, 0⟩ ∧
    ¬(0 ≤ c6Run.cursor.line ∧ c6Run.cursor.line < (c6Run.lines.length : Int)) := by
  exact ⟨by decide, by decide, by decide⟩

/-! ### Token-distribution lemmas (for the poll's rebuild step) -/

theorem distributeStep_length (n : Nat) (acc : List (List SyntaxToken)) (t : SyntaxToken) :
    (distributeStep n acc t).length = acc.length := by
  unfold distributeStep
  dsimp only
  split
  · simp
  · rfl

theorem distributeStep_getD (n : Nat) (acc : List (List SyntaxToken)) (t : SyntaxToken)
    (i : Nat) (hi : i < n) (hacc : acc.length = n) :
    (distributeStep n acc t).getD i [] =
      acc.getD i [] ++ (if t.line = (i : Int) + 1 then [t] else []) := by
  unfold distributeStep
  dsimp only
  split
  · rename_i hcond
    by_cases heq : (t.line - 1).toNat = i
    · have hline : t.line = (i : Int) + 1 := by omega
      rw [heq, getD_set_self _ _ (by omega), if_pos hline]
    · have hline : ¬t.line = (i : Int) + 1 := by omega
      rw [getD_set_ne _ _ _ heq, if_neg hline, List.append_nil]
  · rename_i hcond
    have hline : ¬t.line = (i : Int) + 1 := by
      intro h
      exact hcond (by omega)
    rw [if_neg hline, List.append_nil]

theorem foldl_distributeStep_getD (n : Nat) :
    ∀ (toks : List SyntaxToken) (acc : List (List SyntaxToken)),
      acc.length = n → ∀ i, i < n →
      (toks.foldl (distributeStep n) acc).getD i [] =
        acc.getD i [] ++ toks.filter (fun t => decide (t.line = (i : Int) + 1))
  | [], acc, _, i, _ => by simp
  | t :: ts, acc, hacc, i, hi => by
    rw [List.foldl_cons,
      foldl_distributeStep_getD n ts (distributeStep n acc t)
        (by rw [distributeStep_length]; exact hacc) i hi,
      distributeStep_getD n acc t i hi hacc, List.filter_cons]
    by_cases h : t.line = (i : Int) + 1
    · simp [h]
    · simp [h]

theorem foldl_distributeStep_length (n : Nat) :
    ∀ (toks : List SyntaxToken) (acc : List (List SyntaxToken)),
      (toks.foldl (distributeStep n) acc).length = acc.length
  | [], _ => rfl
  | t :: ts, acc => by
    rw [List.foldl_cons, foldl_distributeStep_length n ts, distributeStep_length]

theorem distributeTokens_getD (n : Nat) (toks : List SyntaxToken) (i : Nat) (hi : i < n) :
    (distributeTokens n toks).getD i [] =
      toks.filter (fun t => decide (t.line = (i : Int) + 1)) := by
  unfold distributeTokens
  rw [foldl_distributeStep_getD n toks (List.replicate n []) (by simp) i hi]
  rw [List.getD_eq_getElem _ _ (by simpa using hi), List.getElem_replicate]
  rfl

theorem distributeTokens_length (n : Nat) (toks : List SyntaxToken) :
    (distributeTokens n toks).length = n := by
  unfold distributeTokens
  rw [foldl_distributeStep_length, List.length_replicate]

theorem rebuildTokensByLine_hit {lines : List Str} {cache : List (Nat × List SyntaxToken)}
    {old : List (List SyntaxToken)} {toks : List SyntaxToken}
    (h : mapLookup cache (hashContent lines) = some toks) :
    rebuildTokensByLine lines cache old =
      (distributeTokens lines.length toks).map sortTokensByColumn := by
  unfold rebuildTokensByLine
  rw [h]

/-! ### Claim C1 -/

/-- C1: when the poll consumes a completed highlight job carrying version `v`:
if `v` differs from the current content version the result is discarded and
none of the per-line token cache, the token cache or `tokens_by_line` is
mutated by the poll; if `v` matches, the tokens are inserted into the token
cache under the current `HashContent()` key, `tokens_by_line` is rebuilt (each
bucket `i` holds exactly the delivered tokens of 1-based line `i + 1`, sorted
by column), and every `line_token_cache` entry has `needs_update` set. -/
theorem C1_poll_version_gate (st : Editor) (v : Nat) (toks : List SyntaxToken)
    (hjob : st.job = some (.done (.ok (v, toks)))) :
    (v ≠ st.content_version →
      ∃ st', processPendingHighlights st = .ok st' ∧
        st'.line_token_cache = st.line_token_cache ∧
        st'.token_cache = st.token_cache ∧
        st'.tokens_by_line = st.tokens_by_line) ∧
    (v = st.content_version →
      ∃ st', processPendingHighlights st = .ok st' ∧
        mapLookup st'.token_cache (hashContent st.lines) = some toks ∧
        st'.tokens_by_line.length = st.lines.length ∧
        (∀ i, i < st.lines.length →
          st'.tokens_by_line.getD i [] =
            sortTokensByColumn (toks.filter (fun t => decide (t.line = (i : Int) + 1)))) ∧
        (∀ c ∈ st'.line_token_cache, c.needs_update = true)) := by
  have hproc : processPendingHighlights st =
      .ok (applyHighlightResult { st with job := none, highlight_pending := false } v toks) := by
    unfold processPendingHighlights
    rw [hjob]
  constructor
  · intro hv
    refine ⟨_, hproc, ?_, ?_, ?_⟩ <;>
    · unfold applyHighlightResult
      rw [if_pos (show v ≠ ({ st with job := none, highlight_pending := false } :
        Editor).content_version from hv)]
      split
      · simp [uha_line_token_cache, uha_token_cache, uha_tokens_by_line]
      · rfl
  · intro hv
    have hlook : mapLookup
        (mapInsert st.token_cache (hashContent st.lines) toks) (hashContent st.lines)
        = some toks := mapLookup_mapInsert_self _ _ _
    refine ⟨_, hproc, ?_, ?_, ?_, ?_⟩ <;>
      unfold applyHighlightResult <;>
      rw [if_neg (not_not_intro (show v = ({ st with job := none, highlight_pending := false } :
        Editor).content_version from hv))] <;>
      dsimp only
    · split
      · rw [uha_token_cache]
        exact hlook
      · exact hlook
    · split
      · rw [uha_tokens_by_line]
        dsimp only
        rw [rebuildTokensByLine_hit hlook, List.length_map, distributeTokens_length]
      · dsimp only
        rw [rebuildTokensByLine_hit hlook, List.length_map, distributeTokens_length]
    · intro i hi
      have hbucket :
          ((distributeTokens st.lines.length toks).map sortTokensByColumn).getD i [] =
            sortTokensByColumn (toks.filter (fun t => decide (t.line = (i : Int) + 1))) := by
        rw [show ([] : List SyntaxToken) = sortTokensByColumn [] from rfl, List.getD_map,
          distributeTokens_getD st.lines.length toks i hi]
      split
      · rw [uha_tokens_by_line]
        dsimp only
        rw [rebuildTokensByLine_hit hlook]
        exact hbucket
      · dsimp only
        rw [rebuildTokensByLine_hit hlook]
        exact hbucket
    · intro c hc
      revert hc
      split
      · rw [uha_line_token_cache]
        dsimp only
        intro hc
        obtain ⟨c0, _, rfl⟩ := List.mem_map.mp hc
        rfl
      · dsimp only
        intro hc
        obtain ⟨c0, _, rfl⟩ := List.mem_map.mp hc
        rfl

/-- Witness for C1 at concrete sessions: the version-0 result is discarded
against a version-1 buffer without touching the three caches, and applied
against a version-0 buffer with insertion, rebuild and re-mark. -/
theorem C1_poll_version_gate_witness :
    (∃ st', processPendingHighlights c1StaleState = .ok st' ∧
        st'.line_token_cache = c1StaleState.line_token_cache ∧
        st'.token_cache = c1StaleState.token_cache ∧
        st'.tokens_by_line = c1StaleState.tokens_by_line) ∧
    (∃ st', processPendingHighlights c1ReadyState = .ok st' ∧
        mapLookup st'.token_cache (hashContent c1ReadyState.lines) = some [c1Token] ∧
        st'.tokens_by_line.length = c1ReadyState.lines.length ∧
        (∀ i, i < c1ReadyState.lines.length →
          st'.tokens_by_line.getD i [] =
            sortTokensByColumn ([c1Token].filter (fun t => decide (t.line = (i : Int) + 1)))) ∧
        (∀ c ∈ st'.line_token_cache, c.needs_update = true)) :=
  ⟨(C1_poll_version_gate c1StaleState 0 [c1Token] rfl).1 (by decide),
   (C1_poll_version_gate c1ReadyState 0 [c1Token] rfl).2 rfl⟩

/-! ### Preservation of the job/flag discipline across all steps -/

theorem jobShape_refl (st : Editor) : JobShape st st := Or.inl ⟨rfl, rfl⟩

theorem jobShape_trans {a b c : Editor} (h1 : JobShape a b) (h2 : JobShape b c) :
    JobShape a c := by
  rcases h1 with ⟨hj1, hp1⟩ | hp1
  · rcases h2 with ⟨hj2, hp2⟩ | hp2
    · exact Or.inl ⟨hj2.trans hj1, hp2.trans hp1⟩
    · exact Or.inr hp2
  · rcases h2 with ⟨hj2, hp2⟩ | hp2
    · exact Or.inr (hp2.trans hp1)
    · exact Or.inr hp2

theorem jobShape_congr {st x y : Editor} (h : JobShape st x) (hj : y.job = x.job)
    (hp : y.highlight_pending = x.highlight_pending) : JobShape st y := by
  rcases h with ⟨hj1, hp1⟩ | hp1
  · exact Or.inl ⟨hj.trans hj1, hp.trans hp1⟩
  · exact Or.inr (hp.trans hp1)

theorem jobInv_of_shape {st st' : Editor} (h : JobFlagInv st) (hd : JobShape st st') :
    JobFlagInv st' := by
  rcases hd with ⟨hj, hp⟩ | hp
  · intro k
    rw [hj] at k
    rw [hp]
    exact h k
  · intro _
    exact hp

theorem jobShape_uha (st : Editor) : JobShape st (updateHighlightingAsync st) := by
  unfold updateHighlightingAsync
  split
  · exact jobShape_refl st
  · exact Or.inr rfl

theorem jobShape_ucfl (st : Editor) (a b : Int) :
    JobShape st (updateContentFromLines st a b) := by
  unfold updateContentFromLines
  dsimp only
  split
  · exact Or.inl ⟨rfl, rfl⟩
  · exact jobShape_trans (jobShape_congr (jobShape_refl st) rfl rfl) (jobShape_uha _)

theorem jobShape_fields {st x : Editor} (h : JobShape st x) (cur : CursorPosition) (sel : Bool) :
    JobShape st { x with cursor := cur, has_selection := sel } := by
  rcases h with ⟨hj, hp⟩ | hp
  · exact Or.inl ⟨hj, hp⟩
  · exact Or.inr hp

theorem jobShape_cursor {st x : Editor} (h : JobShape st x) (cur : CursorPosition) :
    JobShape st { x with cursor := cur } := by
  rcases h with ⟨hj, hp⟩ | hp
  · exact Or.inl ⟨hj, hp⟩
  · exact Or.inr hp

theorem jobShape_dst (st : Editor) : JobShape st (deleteSelectedText st) := by
  unfold deleteSelectedText
  dsimp only
  repeat' split
  all_goals first
    | exact jobShape_refl st
    | (refine jobShape_fields ?_ _ _
       refine jobShape_trans ?_ (jobShape_ucfl _ _ _)
       exact jobShape_refl st)

theorem jobShape_insertChar (st : Editor) (c : Char) (e : Bool) :
    JobShape st (insertChar st c e) := by
  unfold insertChar
  dsimp only
  repeat' split
  all_goals
    refine jobShape_trans ?_ (jobShape_ucfl _ _ _)
    first
      | exact jobShape_refl st
      | exact jobShape_dst st

theorem jobShape_deleteChar (st : Editor) (e : Bool) :
    JobShape st (deleteChar st e) := by
  unfold deleteChar
  dsimp only
  repeat' split
  all_goals first
    | exact jobShape_refl st
    | exact jobShape_dst st
    | (refine jobShape_trans ?_ (jobShape_ucfl _ _ _)
       exact jobShape_refl st)

theorem jobShape_moveLeft (st : Editor) : JobShape st (moveCursorLeft st) := by
  unfold moveCursorLeft
  repeat' split
  all_goals exact jobShape_refl st

theorem jobShape_moveRight (st : Editor) : JobShape st (moveCursorRight st) := by
  unfold moveCursorRight
  repeat' split
  all_goals exact jobShape_refl st

theorem jobShape_moveUp (st : Editor) : JobShape st (moveCursorUp st) := by
  unfold moveCursorUp
  repeat' split
  all_goals exact jobShape_refl st

theorem jobShape_moveDown (st : Editor) : JobShape st (moveCursorDown st) := by
  unfold moveCursorDown
  repeat' split
  all_goals exact jobShape_refl st

theorem jobShape_setContentLines (st : Editor) (nl : List Str) :
    JobShape st (setContentLines st nl) := by
  unfold setContentLines
  dsimp only
  split
  · refine jobShape_trans ?_ (jobShape_ucfl _ _ _)
    exact jobShape_refl st
  · exact jobShape_refl st

theorem jobShape_setContent (st : Editor) (text : Str) :
    JobShape st (setContent st text) := by
  unfold setContent
  exact jobShape_setContentLines st _

theorem jobShape_undo (st : Editor) : JobShape st (undo st) := by
  unfold undo
  split
  · exact jobShape_refl st
  · refine jobShape_cursor ?_ _
    refine jobShape_trans ?_ (jobShape_setContent _ _)
    exact jobShape_refl st

theorem jobShape_redo (st : Editor) : JobShape st (redo st) := by
  unfold redo
  split
  · exact jobShape_refl st
  · refine jobShape_cursor ?_ _
    refine jobShape_trans ?_ (jobShape_setContent _ _)
    exact jobShape_refl st

theorem jobShape_query (st : Editor) (n : Int) :
    JobShape st (getVisibleTokensForLine st n).2 := by
  unfold getVisibleTokensForLine
  dsimp only
  repeat' split
  all_goals exact jobShape_refl st

theorem jobShape_apply (st : Editor) (v : Nat) (toks : List SyntaxToken) :
    JobShape st (applyHighlightResult st v toks) := by
  unfold applyHighlightResult
  dsimp only
  repeat' split
  all_goals first
    | exact jobShape_refl st
    | (refine jobShape_trans ?_ (jobShape_uha _)
       exact jobShape_refl st)

theorem jobInv_finish {st : Editor} (h : JobFlagInv st) (tok : Tokenizer) :
    JobFlagInv (finishHighlightJob tok st) := by
  unfold finishHighlightJob
  split
  · rename_i v content edits heq
    intro _
    exact h (by rw [heq]; rfl)
  · exact h

theorem jobInv_none {st : Editor} (h : st.job = none) : JobFlagInv st := by
  intro hj
  rw [h] at hj
  cases hj

theorem jobInv_pollOk {st st' : Editor} (h : JobFlagInv st)
    (hp : processPendingHighlights st = .ok st') : JobFlagInv st' := by
  unfold processPendingHighlights at hp
  split at hp
  · rename_i r heq
    split at hp
    · cases hp
    · rename_i ver tokens
      cases hp
      exact jobInv_of_shape (jobInv_none rfl) (jobShape_apply _ ver tokens)
  · cases hp
    exact h

theorem jobInv_pollErr {st st' : Editor}
    (hp : processPendingHighlights st = .error st') : JobFlagInv st' := by
  unfold processPendingHighlights at hp
  split at hp
  · split at hp
    · cases hp
      exact jobInv_none rfl
    · cases hp
  · cases hp

theorem jobInv_step {st st' : Editor} (h : JobFlagInv st) (hs : Step st st') :
    JobFlagInv st' := by
  cases hs with
  | insertChar c e => exact jobInv_of_shape h (jobShape_insertChar st c e)
  | deleteChar e => exact jobInv_of_shape h (jobShape_deleteChar st e)
  | deleteSelected => exact jobInv_of_shape h (jobShape_dst st)
  | moveLeft => exact jobInv_of_shape h (jobShape_moveLeft st)
  | moveRight => exact jobInv_of_shape h (jobShape_moveRight st)
  | moveUp => exact jobInv_of_shape h (jobShape_moveUp st)
  | moveDown => exact jobInv_of_shape h (jobShape_moveDown st)
  | setContent text => exact jobInv_of_shape h (jobShape_setContent st text)
  | undoStep => exact jobInv_of_shape h (jobShape_undo st)
  | redoStep => exact jobInv_of_shape h (jobShape_redo st)
  | queryLine n => exact jobInv_of_shape h (jobShape_query st n)
  | finish tok => exact jobInv_finish h tok
  | pollOk _ hp => exact jobInv_pollOk h hp
  | pollThrow _ hp => exact jobInv_pollErr hp

/-! ### Claim C5 -/

/-- C5: at most one highlight job is in flight.  (1) A launch request while the
pending flag is set does not start a job (`exchange(true)` guard).  (2) A
content update while pending starts no job either — it only sets the dirty
flag (and leaves the lane pending).  (3) When the poll consumes the in-flight
job's result with the dirty flag set, a fresh job is launched immediately,
snapshotting the latest content, version and drained edit list.  (4) In every
state reachable from a fresh editor by edits, cursor moves, queries, job
completion and polls, a job in flight implies the pending flag is set, so the
guard in (1)/(2) can never overwrite an in-flight job. -/
theorem C5_single_inflight_job :
    (∀ st : Editor, st.highlight_pending = true → updateHighlightingAsync st = st) ∧
    (∀ (st : Editor) (a b : Int), st.highlight_pending = true →
        (updateContentFromLines st a b).job = st.job ∧
        (updateContentFromLines st a b).highlight_pending = true ∧
        (updateContentFromLines st a b).highlight_dirty = true) ∧
    (∀ (st : Editor) (v : Nat) (toks : List SyntaxToken),
        st.job = some (.done (.ok (v, toks))) → st.highlight_dirty = true →
        ∃ st', processPendingHighlights st = .ok st' ∧
          st'.job = some (.running st.content_version (getContent st.lines) st.pending_edits) ∧
          st'.highlight_pending = true ∧
          st'.highlight_dirty = false) ∧
    (∀ st : Editor, Reach st → st.job.isSome = true → st.highlight_pending = true) := by
  refine ⟨?_, ?_, ?_, ?_⟩
  · intro st hpend
    exact uha_of_pending hpend
  · intro st a b hpend
    exact ucfl_of_pending a b hpend
  · intro st v toks hjob hdirty
    have hproc : processPendingHighlights st =
        .ok (applyHighlightResult { st with job := none, highlight_pending := false } v toks) := by
      unfold processPendingHighlights
      rw [hjob]
    refine ⟨_, hproc, ?_, ?_, ?_⟩ <;>
    · unfold applyHighlightResult
      dsimp only
      by_cases hv : v = st.content_version
      · rw [if_neg (not_not_intro hv)]
        rw [if_pos (show st.highlight_dirty = true from hdirty)]
        rw [uha_launches rfl]
      · rw [if_pos hv]
        rw [if_pos (show st.highlight_dirty = true from hdirty)]
        rw [uha_launches rfl]
  · intro st hr
    have hinv : JobFlagInv st := by
      induction hr with
      | init text =>
        intro _
        unfold loadEditor
        dsimp only
        rw [uha_launches rfl]
      | step hr hs ih => exact jobInv_step ih hs
    exact hinv

/-- Witness for C5 at concrete sessions: the guard on a pending session, the
dirty-flag path of a content update, the immediate relaunch on a dirty poll,
and the invariant at a freshly loaded editor. -/
theorem C5_single_inflight_job_witness :
    updateHighlightingAsync c5PendingState = c5PendingState ∧
    (updateContentFromLines c5PendingState 0 0).highlight_dirty = true ∧
    (∃ st', processPendingHighlights c5DirtyState = .ok st' ∧
        st'.job = some (.running c5DirtyState.content_version
          (getContent c5DirtyState.lines) c5DirtyState.pending_edits) ∧
        st'.highlight_pending = true ∧
        st'.highlight_dirty = false) ∧
    (loadEditor ("a".toList)).highlight_pending = true :=
  ⟨C5_single_inflight_job.1 c5PendingState rfl,
   (C5_single_inflight_job.2.1 c5PendingState 0 0 rfl).2.2,
   C5_single_inflight_job.2.2.1 c5DirtyState 0 [c1Token] rfl rfl,
   C5_single_inflight_job.2.2.2 (loadEditor ("a".toList)) (Reach.init _) rfl⟩

/-! ### Common whole-line prefix and suffix (the `SetContent` diff) -/

theorem cpl_le_left : ∀ (a b : List Str), commonPrefixLen a b ≤ a.length
  | [], _ => Nat.le_refl 0
  | _ :: _, [] => Nat.zero_le _
  | a :: as, b :: bs => by
    by_cases h : a = b
    · simp only [commonPrefixLen, if_pos h, List.length_cons]
      exact Nat.succ_le_succ (cpl_le_left as bs)
    · simp only [commonPrefixLen, if_neg h]
      exact Nat.zero_le _

theorem cpl_le_right : ∀ (a b : List Str), commonPrefixLen a b ≤ b.length
  | [], _ => Nat.zero_le _
  | _ :: _, [] => Nat.le_refl 0
  | a :: as, b :: bs => by
    by_cases h : a = b
    · simp only [commonPrefixLen, if_pos h, List.length_cons]
      exact Nat.succ_le_succ (cpl_le_right as bs)
    · simp only [commonPrefixLen, if_neg h]
      exact Nat.zero_le _

theorem cpl_self : ∀ (l : List Str), commonPrefixLen l l = l.length
  | [] => rfl
  | a :: as => by simp [commonPrefixLen, cpl_self as]

theorem cpl_take : ∀ (a b : List Str),
    List.take (commonPrefixLen a b) a = List.take (commonPrefixLen a b) b
  | [], _ => rfl
  | _ :: _, [] => rfl
  | a :: as, b :: bs => by
    by_cases h : a = b
    · simp only [commonPrefixLen, if_pos h, List.take_succ_cons]
      rw [h, cpl_take as bs]
    · simp only [commonPrefixLen, if_neg h, List.take_zero]

theorem cpl_agree : ∀ (a b : List Str) (i : Nat), i < commonPrefixLen a b →
    a.getD i [] = b.getD i []
  | [], _, i, h => absurd h (Nat.not_lt_zero i)
  | _ :: _, [], i, h => absurd h (Nat.not_lt_zero i)
  | a :: as, b :: bs, i, h => by
    by_cases hab : a = b
    · cases i with
      | zero => simpa using hab
      | succ j =>
        have h' : j < commonPrefixLen as bs := by
          simp only [commonPrefixLen, if_pos hab] at h
          omega
        simpa using cpl_agree as bs j h'
    · simp only [commonPrefixLen, if_neg hab] at h
      exact absurd h (Nat.not_lt_zero i)

theorem cpl_ge : ∀ (k : Nat) (a b : List Str),
    (∀ i, i < k → a.getD i [] = b.getD i []) → k ≤ a.length → k ≤ b.length →
    k ≤ commonPrefixLen a b
  | 0, _, _, _, _, _ => Nat.zero_le _
  | k + 1, [], _, _, ha, _ => by
    simp only [List.length_nil] at ha
    omega
  | k + 1, _ :: _, [], _, _, hb => by
    simp only [List.length_nil] at hb
    omega
  | k + 1, a :: as, b :: bs, hpt, ha, hb => by
    have hab : a = b := by simpa using hpt 0 (Nat.succ_pos k)
    have ha' : k ≤ as.length := by simp only [List.length_cons] at ha; omega
    have hb' : k ≤ bs.length := by simp only [List.length_cons] at hb; omega
    have ih := cpl_ge k as bs
      (fun i hi => by simpa using hpt (i + 1) (by omega)) ha' hb'
    simp only [commonPrefixLen, if_pos hab]
    omega

theorem cpl_le_of_ne (a b : List Str) (k : Nat)
    (h : a.getD k [] ≠ b.getD k []) : commonPrefixLen a b ≤ k := by
  by_contra hlt
  push_neg at hlt
  exact h (cpl_agree a b k hlt)

/-! ### `getD` arithmetic over `reverse`, `take`, `drop` and `replicate` -/

theorem getD_reverse (l : List α) (i : Nat) (d : α) (h : i < l.length) :
    l.reverse.getD i d = l.getD (l.length - 1 - i) d := by
  rw [List.getD_eq_getElem _ _ (by rw [List.length_reverse]; exact h),
      List.getD_eq_getElem _ _ (by omega)]
  exact List.getElem_reverse _

theorem getD_take (l : List α) (n i : Nat) (d : α) (h : i < n) :
    (l.take n).getD i d = l.getD i d := by
  by_cases hl : i < l.length
  · rw [List.getD_eq_getElem _ _ (by simp only [List.length_take]; omega),
        List.getD_eq_getElem _ _ hl]
    exact List.getElem_take _
  · rw [List.getD_eq_default _ _ (by simp only [List.length_take]; omega),
        List.getD_eq_default _ _ (by omega)]

theorem getD_drop (l : List α) (k i : Nat) (d : α) :
    (l.drop k).getD i d = l.getD (k + i) d := by
  by_cases h : i < l.length - k
  · rw [List.getD_eq_getElem _ _ (by simp only [List.length_drop]; omega),
        List.getD_eq_getElem _ _ (by omega)]
    exact List.getElem_drop _
  · rw [List.getD_eq_default _ _ (by simp only [List.length_drop]; omega),
        List.getD_eq_default _ _ (by omega)]

theorem getD_replicate (n i : Nat) (a d : α) (h : i < n) :
    (List.replicate n a).getD i d = a := by
  rw [List.getD_eq_getElem _ _ (by simp only [List.length_replicate]; exact h)]
  exact List.getElem_replicate _ _

/-! ### The rebuilt per-line cache of `SetContent` -/

theorem resizeWith_self (d : α) (l : List α) (n : Nat) (h : l.length = n) :
    resizeWith d l n = l := by
  subst h
  unfold resizeWith
  rw [List.take_length, Nat.sub_self, List.replicate_zero, List.append_nil]

theorem markFrom_length : ∀ (cs : List LineCache) (i0 : Nat) (f l : Int),
    (markFrom i0 f l cs).length = cs.length
  | [], _, _, _ => rfl
  | c :: cs, i0, f, l => by
    simp only [markFrom, List.length_cons, markFrom_length cs (i0 + 1) f l]

theorem markFrom_getD : ∀ (cs : List LineCache) (i0 : Nat) (f l : Int) (j : Nat),
    j < cs.length →
    (markFrom i0 f l cs).getD j {} =
      (if f ≤ ((i0 + j : Nat) : Int) ∧ ((i0 + j : Nat) : Int) ≤ l
       then { cs.getD j {} with needs_update := true } else cs.getD j {})
  | [], _, _, _, j, hj => absurd hj (Nat.not_lt_zero j)
  | c :: cs, i0, f, l, 0, _ => by
    simp only [markFrom, List.getD_cons_zero, Nat.add_zero]
  | c :: cs, i0, f, l, j + 1, hj => by
    have ih := markFrom_getD cs (i0 + 1) f l j
      (by simp only [List.length_cons] at hj; omega)
    simp only [markFrom, List.getD_cons_succ]
    rw [ih]
    have hcast : ((i0 + 1 + j : Nat) : Int) = ((i0 + (j + 1) : Nat) : Int) := by omega
    rw [hcast]

theorem ucfl_cache (st : Editor) (a b : Int) :
    (updateContentFromLines st a b).line_token_cache =
      (if 0 ≤ a ∧ 0 ≤ (if b < 0 then (st.lines.length : Int) - 1 else b) then
        markFrom 0 a (if b < 0 then (st.lines.length : Int) - 1 else b)
          (resizeWith {} st.line_token_cache st.lines.length)
       else
        (resizeWith {} st.line_token_cache st.lines.length).map
          (fun (c : LineCache) => { c with needs_update := true })) := by
  unfold updateContentFromLines
  dsimp only
  split
  · rfl
  · rw [uha_line_token_cache]
theorem setContentLines_cache_eq (st : Editor) (nl : List Str) :
    (setContentLines st nl).line_token_cache =
      (if commonPrefixLen st.lines nl
          < nl.length - suffixLenFrom st.lines nl (commonPrefixLen st.lines nl) then
        markFrom 0 (commonPrefixLen st.lines nl : Int)
          ((nl.length : Int) - (suffixLenFrom st.lines nl (commonPrefixLen st.lines nl) : Int) - 1)
          (resizeWith {}
            (st.line_token_cache.take (commonPrefixLen st.lines nl)
              ++ List.replicate (nl.length - suffixLenFrom st.lines nl (commonPrefixLen st.lines nl)
                    - commonPrefixLen st.lines nl) invalidatedEntry
              ++ st.line_token_cache.drop
                  (st.lines.length - suffixLenFrom st.lines nl (commonPrefixLen st.lines nl)))
            nl.length)
       else
        st.line_token_cache.take (commonPrefixLen st.lines nl)
          ++ List.replicate (nl.length - suffixLenFrom st.lines nl (commonPrefixLen st.lines nl)
                - commonPrefixLen st.lines nl) invalidatedEntry
          ++ st.line_token_cache.drop
              (st.lines.length - suffixLenFrom st.lines nl (commonPrefixLen st.lines nl))) := by
  unfold setContentLines
  dsimp only
  split
  · rename_i hch
    try rw [if_pos hch]
    have h2 := cpl_le_right st.lines nl
    have h3 : suffixLenFrom st.lines nl (commonPrefixLen st.lines nl)
        ≤ nl.length - commonPrefixLen st.lines nl := by
      unfold suffixLenFrom; omega
    have hbneg : ¬((nl.length : Int)
        - (suffixLenFrom st.lines nl (commonPrefixLen st.lines nl) : Int) - 1 < 0) := by
      omega
    have hpos : (0 : Int) ≤ (commonPrefixLen st.lines nl : Int) ∧
        (0 : Int) ≤ (nl.length : Int)
          - (suffixLenFrom st.lines nl (commonPrefixLen st.lines nl) : Int) - 1 :=
      ⟨by omega, by omega⟩
    rw [ucfl_cache]
    dsimp only
    rw [if_neg hbneg, if_pos hpos]
  · rename_i hch
    try rw [if_neg hch]
    rfl

theorem setContentLines_cache_spec (st : Editor) (nl : List Str) (p s : Nat)
    (hP : commonPrefixLen st.lines nl = p)
    (hS : suffixLenFrom st.lines nl p = s)
    (hc : st.line_token_cache.length = st.lines.length) :
    (setContentLines st nl).line_token_cache.length = nl.length ∧
    (∀ i, i < p → (setContentLines st nl).line_token_cache.getD i ({} : LineCache) =
       st.line_token_cache.getD i {}) ∧
    (∀ i, nl.length - s ≤ i → i < nl.length →
       (setContentLines st nl).line_token_cache.getD i {} =
         st.line_token_cache.getD (i + st.lines.length - nl.length) {}) ∧
    (∀ i, p ≤ i → i < nl.length - s →
       (setContentLines st nl).line_token_cache.getD i {} = invalidatedEntry) := by
  have hp1 : p ≤ st.lines.length := hP ▸ cpl_le_left st.lines nl
  have hp2 : p ≤ nl.length := hP ▸ cpl_le_right st.lines nl
  have hs1 : s ≤ st.lines.length - p := by
    rw [← hS]; unfold suffixLenFrom; omega
  have hs2 : s ≤ nl.length - p := by
    rw [← hS]; unfold suffixLenFrom; omega
  have heq := setContentLines_cache_eq st nl
  rw [hP, hS] at heq
  have hA : (st.line_token_cache.take p).length = p := by
    simp only [List.length_take]; omega
  have hAB : (st.line_token_cache.take p
      ++ List.replicate (nl.length - s - p) invalidatedEntry).length = nl.length - s := by
    simp only [List.length_append, List.length_take, List.length_replicate]
    omega
  have hlen : (st.line_token_cache.take p
      ++ List.replicate (nl.length - s - p) invalidatedEntry
      ++ st.line_token_cache.drop (st.lines.length - s)).length = nl.length := by
    simp only [List.length_append, List.length_take, List.length_replicate, List.length_drop]
    omega
  have hpre : ∀ i, i < p →
      (st.line_token_cache.take p
        ++ List.replicate (nl.length - s - p) invalidatedEntry
        ++ st.line_token_cache.drop (st.lines.length - s)).getD i ({} : LineCache)
        = st.line_token_cache.getD i {} := by
    intro i hi
    have hab1 : i < (st.line_token_cache.take p
        ++ List.replicate (nl.length - s - p) invalidatedEntry).length := by
      rw [hAB]; omega
    rw [List.getD_append _ _ _ _ hab1]
    have hA1 : i < (st.line_token_cache.take p).length := by rw [hA]; exact hi
    rw [List.getD_append _ _ _ _ hA1]
    exact getD_take _ _ _ _ hi
  have hsuf : ∀ i, nl.length - s ≤ i → i < nl.length →
      (st.line_token_cache.take p
        ++ List.replicate (nl.length - s - p) invalidatedEntry
        ++ st.line_token_cache.drop (st.lines.length - s)).getD i ({} : LineCache)
        = st.line_token_cache.getD (i + st.lines.length - nl.length) {} := by
    intro i h1 h2
    have hab1 : (st.line_token_cache.take p
        ++ List.replicate (nl.length - s - p) invalidatedEntry).length ≤ i := by
      rw [hAB]; omega
    rw [List.getD_append_right _ _ _ _ hab1, hAB]
    rw [getD_drop]
    have e : st.lines.length - s + (i - (nl.length - s))
        = i + st.lines.length - nl.length := by omega
    rw [e]
  have hin : ∀ i, p ≤ i → i < nl.length - s →
      (st.line_token_cache.take p
        ++ List.replicate (nl.length - s - p) invalidatedEntry
        ++ st.line_token_cache.drop (st.lines.length - s)).getD i ({} : LineCache)
        = invalidatedEntry := by
    intro i h1 h2
    have hab1 : i < (st.line_token_cache.take p
        ++ List.replicate (nl.length - s - p) invalidatedEntry).length := by
      rw [hAB]; omega
    rw [List.getD_append _ _ _ _ hab1]
    have hA1 : (st.line_token_cache.take p).length ≤ i := by rw [hA]; omega
    rw [List.getD_append_right _ _ _ _ hA1, hA]
    exact getD_replicate _ _ _ _ (by omega)
  by_cases hch : p < nl.length - s
  · rw [if_pos hch] at heq
    rw [resizeWith_self _ _ _ hlen] at heq
    refine ⟨?_, ?_, ?_, ?_⟩
    · rw [heq, markFrom_length, hlen]
    · intro i hi
      have hiT : i < (st.line_token_cache.take p
          ++ List.replicate (nl.length - s - p) invalidatedEntry
          ++ st.line_token_cache.drop (st.lines.length - s)).length := by
        rw [hlen]; omega
      rw [heq, markFrom_getD _ _ _ _ i hiT]
      split
      · rename_i hcond
        exfalso
        omega
      · exact hpre i hi
    · intro i h1 h2
      have hiT : i < (st.line_token_cache.take p
          ++ List.replicate (nl.length - s - p) invalidatedEntry
          ++ st.line_token_cache.drop (st.lines.length - s)).length := by
        rw [hlen]; omega
      rw [heq, markFrom_getD _ _ _ _ i hiT]
      split
      · rename_i hcond
        exfalso
        omega
      · exact hsuf i h1 h2
    · intro i h1 h2
      have hiT : i < (st.line_token_cache.take p
          ++ List.replicate (nl.length - s - p) invalidatedEntry
          ++ st.line_token_cache.drop (st.lines.length - s)).length := by
        rw [hlen]; omega
      rw [heq, markFrom_getD _ _ _ _ i hiT]
      split
      · rw [hin i h1 h2]
        rfl
      · rename_i hcond
        exact (hcond ⟨by omega, by omega⟩).elim
  · rw [if_neg hch] at heq
    exact ⟨by rw [heq]; exact hlen,
      fun i hi => by rw [heq]; exact hpre i hi,
      fun i h1 h2 => by rw [heq]; exact hsuf i h1 h2,
      fun i h1 h2 => by rw [heq]; exact hin i h1 h2⟩

theorem setContentLines_self (st : Editor)
    (hc : st.line_token_cache.length = st.lines.length)
    (ht : st.tokens_by_line.length = st.lines.length) :
    setContentLines st st.lines = { st with cursor := ⟨0, 0⟩, has_selection := false } := by
  have hp := cpl_self st.lines
  have hs0 : suffixLenFrom st.lines st.lines st.lines.length = 0 := by
    unfold suffixLenFrom
    omega
  unfold setContentLines
  dsimp only
  rw [hp, hs0]
  have hnc : ¬ st.lines.length < st.lines.length - 0 := by omega
  rw [if_neg hnc]
  have h1 : st.line_token_cache.take st.lines.length = st.line_token_cache := by
    rw [← hc]; exact List.take_length _
  have h1t : st.tokens_by_line.take st.lines.length = st.tokens_by_line := by
    rw [← ht]; exact List.take_length _
  have h3 : st.line_token_cache.drop (st.lines.length - 0) = [] := by
    rw [Nat.sub_zero, ← hc]; exact List.drop_length _
  have h3t : st.tokens_by_line.drop (st.lines.length - 0) = [] := by
    rw [Nat.sub_zero, ← ht]; exact List.drop_length _
  have h2 : st.lines.length - 0 - st.lines.length = 0 := by omega
  rw [h1, h1t, h3, h3t, h2]
  simp only [List.replicate_zero, List.nil_append, List.append_nil]

/-- C4: `SetContent` diffs old and new line sequences by the longest common
whole-line prefix and bound-clamped longest common suffix, and rebuilds
`line_token_cache_` so that prefix entries are copied by position, suffix
entries are copied re-indexed by the line-count delta, and exactly the
interior entries are the freshly invalidated ones (`is_valid = false`,
`needs_update = true`); in the 10-line scenario where only line 5 differs,
the prefix is 5 and the suffix 4, entries 0-4 and 6-9 are reused and exactly
entry 5 is invalidated; and with identical content the whole state is
untouched apart from the unconditional cursor/selection reset. -/
theorem C4_setContent_diff_cache_reuse :
    (∀ (a b : List Str),
       List.take (commonPrefixLen a b) a = List.take (commonPrefixLen a b) b ∧
       (∀ k, k ≤ a.length → k ≤ b.length → List.take k a = List.take k b →
          k ≤ commonPrefixLen a b) ∧
       (∀ n, n < suffixLenFrom a b (commonPrefixLen a b) →
          a.getD (a.length - 1 - n) [] = b.getD (b.length - 1 - n) []) ∧
       (∀ n, (∀ m, m < n → a.getD (a.length - 1 - m) [] = b.getD (b.length - 1 - m) []) →
          n ≤ a.length - commonPrefixLen a b → n ≤ b.length - commonPrefixLen a b →
          n ≤ suffixLenFrom a b (commonPrefixLen a b))) ∧
    (∀ (st : Editor) (nl : List Str) (p s : Nat),
       commonPrefixLen st.lines nl = p →
       suffixLenFrom st.lines nl p = s →
       st.line_token_cache.length = st.lines.length →
       (setContentLines st nl).line_token_cache.length = nl.length ∧
       (∀ i, i < p → (setContentLines st nl).line_token_cache.getD i ({} : LineCache) =
          st.line_token_cache.getD i {}) ∧
       (∀ i, nl.length - s ≤ i → i < nl.length →
          (setContentLines st nl).line_token_cache.getD i {} =
            st.line_token_cache.getD (i + st.lines.length - nl.length) {}) ∧
       (∀ i, p ≤ i → i < nl.length - s →
          (setContentLines st nl).line_token_cache.getD i {} = invalidatedEntry)) ∧
    (∀ (st : Editor) (nl : List Str),
       st.lines.length = 10 → nl.length = 10 → st.line_token_cache.length = 10 →
       (∀ i, i < 10 → i ≠ 5 → st.lines.getD i [] = nl.getD i []) →
       st.lines.getD 5 [] ≠ nl.getD 5 [] →
       commonPrefixLen st.lines nl = 5 ∧
       suffixLenFrom st.lines nl 5 = 4 ∧
       (∀ i, i < 10 → i ≠ 5 →
          (setContentLines st nl).line_token_cache.getD i ({} : LineCache) =
            st.line_token_cache.getD i {}) ∧
       (setContentLines st nl).line_token_cache.getD 5 ({} : LineCache) = invalidatedEntry) ∧
    (∀ (st : Editor),
       st.line_token_cache.length = st.lines.length →
       st.tokens_by_line.length = st.lines.length →
       setContentLines st st.lines = { st with cursor := ⟨0, 0⟩, has_selection := false }) := by
  refine ⟨fun a b => ⟨cpl_take a b, ?_, ?_, ?_⟩,
    fun st nl p s hP hS hc => setContentLines_cache_spec st nl p s hP hS hc,
    ?_,
    fun st h1 h2 => setContentLines_self st h1 h2⟩
  · -- the prefix is longest: any whole-line-equal front segment is at most it
    intro k hka hkb htk
    exact cpl_ge k a b
      (fun i hi => by rw [← getD_take a k i [] hi, ← getD_take b k i [] hi, htk]) hka hkb
  · -- suffix agreement (counting from the back ends)
    intro n hn
    unfold suffixLenFrom at hn
    have hb1 : n < commonPrefixLen a.reverse b.reverse := by omega
    have hna : n < a.length := by omega
    have hnb : n < b.length := by omega
    have h := cpl_agree a.reverse b.reverse n hb1
    rw [getD_reverse a n [] hna, getD_reverse b n [] hnb] at h
    exact h
  · -- suffix maximality under the two loop bounds
    intro n hpt hna hnb
    have hraw : n ≤ commonPrefixLen a.reverse b.reverse :=
      cpl_ge n a.reverse b.reverse
        (fun i hi => by
          rw [getD_reverse a i [] (by omega), getD_reverse b i [] (by omega)]
          exact hpt i hi)
        (by rw [List.length_reverse]; omega)
        (by rw [List.length_reverse]; omega)
    unfold suffixLenFrom
    omega
  · -- the 10-line, line-5-changed scenario
    intro st nl hol hnl hcl hpt h5
    have hc : st.line_token_cache.length = st.lines.length := by omega
    have hP : commonPrefixLen st.lines nl = 5 := by
      apply Nat.le_antisymm
      · exact cpl_le_of_ne _ _ 5 h5
      · exact cpl_ge 5 _ _ (fun i hi => hpt i (by omega) (by omega)) (by omega) (by omega)
    have hraw : commonPrefixLen st.lines.reverse nl.reverse = 4 := by
      apply Nat.le_antisymm
      · apply cpl_le_of_ne
        rw [getD_reverse st.lines 4 [] (by omega), getD_reverse nl 4 [] (by omega)]
        have e1 : st.lines.length - 1 - 4 = 5 := by omega
        have e2 : nl.length - 1 - 4 = 5 := by omega
        rw [e1, e2]
        exact h5
      · exact cpl_ge 4 st.lines.reverse nl.reverse
          (fun m hm => by
            rw [getD_reverse st.lines m [] (by omega), getD_reverse nl m [] (by omega)]
            have e : nl.length - 1 - m = st.lines.length - 1 - m := by omega
            rw [e]
            exact hpt (st.lines.length - 1 - m) (by omega) (by omega))
          (by rw [List.length_reverse]; omega)
          (by rw [List.length_reverse]; omega)
    have hS : suffixLenFrom st.lines nl 5 = 4 := by
      unfold suffixLenFrom
      rw [hraw, hol, hnl]
      decide
    obtain ⟨hL, hPre, hSuf, hInt⟩ := setContentLines_cache_spec st nl 5 4 hP hS hc
    refine ⟨hP, hS, ?_, hInt 5 (by omega) (by omega)⟩
    intro i hi hne
    by_cases hlt : i < 5
    · exact hPre i hlt
    · have h := hSuf i (by omega) (by omega)
      have e : i + st.lines.length - nl.length = i := by omega
      rw [e] at h
      exact h

/-- Witness for C4 at the concrete 10-line session: the common-front
take-equality, cache length, prefix 5, suffix 4, entries 2 and 7 reused,
entry 5 invalidated, and the identical-content frame equality. -/
theorem C4_setContent_diff_cache_reuse_witness :
    List.take (commonPrefixLen c4TenLineState.lines c4ChangedLines) c4TenLineState.lines =
      List.take (commonPrefixLen c4TenLineState.lines c4ChangedLines) c4ChangedLines ∧
    (setContentLines c4TenLineState c4ChangedLines).line_token_cache.length =
      c4ChangedLines.length ∧
    commonPrefixLen c4TenLineState.lines c4ChangedLines = 5 ∧
    suffixLenFrom c4TenLineState.lines c4ChangedLines 5 = 4 ∧
    (setContentLines c4TenLineState c4ChangedLines).line_token_cache.getD 2 ({} : LineCache) =
      c4TenLineState.line_token_cache.getD 2 {} ∧
    (setContentLines c4TenLineState c4ChangedLines).line_token_cache.getD 7 ({} : LineCache) =
      c4TenLineState.line_token_cache.getD 7 {} ∧
    (setContentLines c4TenLineState c4ChangedLines).line_token_cache.getD 5 ({} : LineCache) =
      invalidatedEntry ∧
    setContentLines c4TenLineState c4TenLineState.lines =
      { c4TenLineState with cursor := ⟨0, 0⟩, has_selection := false } := by
  have h3 := C4_setContent_diff_cache_reuse.2.2.1 c4TenLineState c4ChangedLines
    (by decide) (by decide) (by decide) (by decide) (by decide)
  exact ⟨(C4_setContent_diff_cache_reuse.1 c4TenLineState.lines c4ChangedLines).1,
    (C4_setContent_diff_cache_reuse.2.1 c4TenLineState c4ChangedLines _ _ rfl rfl
      (by decide)).1,
    h3.1, h3.2.1,
    h3.2.2.1 2 (by decide) (by decide),
    h3.2.2.1 7 (by decide) (by decide),
    h3.2.2.2,
    C4_setContent_diff_cache_reuse.2.2.2 c4TenLineState (by decide) (by decide)⟩
